import Mathlib

/-!
# A cycle-level model of the five-stage pipeline simulator

Shallow embedding of `arch.h`, `inst-decoder.{h,cc}`, `alu.{h,cc}`,
`memory-control.cc`, `stages.{h,cc}`, `pipeline.{h,cc}` and `processor.{h,cc}`.

* Machine words (`RegValue`, `MemAddress`, 32 bit) and the 64-bit statistics
  counters are natural numbers; every increment is reduced modulo the width.
* C++ exceptions are the type `Fault`; an operation that can throw returns
  `Except Fault _`.
* The stage objects hold references to the latches, the counters and to
  components owned by the `Processor` (program counter, register file, flag,
  decoder).  All of these live in the one record `Pipeline`, so that a stage
  operation is a function on that record.
* The memory bus and the system-status device are not part of the sources
  (`memory-bus.h`, `sys-status.h`); `Processor.run` takes them as the
  parameter `BusModel`.
-/

namespace Emu

/-! ## arch.h, inst-decoder.h -/

abbrev RegValue := Nat
abbrev MemAddress := Nat
abbrev RegNumber := Nat

/-- Number of values of a 32-bit word (`uint32_t`). -/
def wordSize : Nat := 2 ^ 32

/-- Number of values of a statistics counter (`uint64_t`). -/
def counterSize : Nat := 2 ^ 64

def NumRegs : Nat := 32

def TestEndMarker : Nat := 0x40ffccff

def INSTRUCTION_SIZE : Nat := 4

/-- The exceptions of the program.  `outOfRange` stands for indexing the stage
vector outside its bounds, which the source leaves undefined; it is never
reached (see `Pipeline.cycle_wf`). -/
inductive Fault where
  | TestEndMarkerEncountered (addr : MemAddress)
  | InstructionFetchFailure (addr : MemAddress)
  | IllegalInstruction
  | IllegalAccess
  | other
  | outOfRange
  deriving DecidableEq, Repr

/-- The decoder of `inst-decoder.h`: it holds the instruction word. -/
structure InstructionDecoder where
  instructionWord : Nat := 0

def InstructionDecoder.setInstructionWord (_d : InstructionDecoder) (w : Nat) :
    InstructionDecoder :=
  { instructionWord := w }

def InstructionDecoder.getInstructionWord (d : InstructionDecoder) : Nat :=
  d.instructionWord

def InstructionDecoder.getA (_d : InstructionDecoder) : RegNumber := 0

def InstructionDecoder.getB (_d : InstructionDecoder) : RegNumber := 0

def InstructionDecoder.getD (_d : InstructionDecoder) : RegNumber := 0

/-- Modelled from the spec: `reg-file.h` is not among the sources.  The
register file is a "mapping from register index (0–31) to a machine word",
"overwritten on every write". -/
structure RegisterFile where
  regs : RegNumber → RegValue := fun _ => 0

def RegisterFile.readRegister (r : RegisterFile) (n : RegNumber) : RegValue :=
  r.regs n

def RegisterFile.writeRegister (r : RegisterFile) (n : RegNumber) (v : RegValue) :
    RegisterFile :=
  { regs := fun i => if i = n then v % wordSize else r.regs i }

/-! ## stages.h: latches and stages -/

structure IF_IDRegisters where
  PC : MemAddress := 0

structure ID_EXRegisters where
  PC : MemAddress := 0

structure EX_MRegisters where
  PC : MemAddress := 0

structure M_WBRegisters where
  PC : MemAddress := 0

/-- The configuration an `InstructionMemory` adapter holds (memory-control.cc). -/
structure InstructionMemory where
  size : Nat := 0
  addr : MemAddress := 0

/-- The `Pipeline` object, the private members of its five stages, and the
components of the `Processor` that the stages hold by reference. -/
structure Pipeline where
  /- members of `Pipeline` -/
  pipelining : Bool
  currentStage : Nat := 0
  nInstrIssued : Nat := 0
  nInstrCompleted : Nat := 0
  nStalls : Nat := 0
  if_id : IF_IDRegisters := {}
  id_ex : ID_EXRegisters := {}
  ex_m : EX_MRegisters := {}
  m_wb : M_WBRegisters := {}
  /- private members of the stages -/
  instructionMemory : InstructionMemory := {}
  debugMode : Bool := false
  idPC : MemAddress := 0
  exPC : MemAddress := 0
  memPC : MemAddress := 0
  /- components of the `Processor` held by reference -/
  PC : MemAddress := 0
  regfile : RegisterFile := {}
  flag : Bool := false
  decoder : InstructionDecoder := {}
  /- the program counters dumped to `std::cerr` in debug mode, oldest first -/
  cerr : List MemAddress := []

inductive StageId where
  | IF | ID | EX | MEM | WB
  deriving DecidableEq, Repr

/-- The stage vector built by the constructor of `Pipeline`. -/
def stages : List StageId :=
  [StageId.IF, StageId.ID, StageId.EX, StageId.MEM, StageId.WB]

/-- `++counter` on a `uint64_t`. -/
def incr64 (n : Nat) : Nat := (n + 1) % counterSize

/-- The fetch stage's `propagate`: a `try` block whose body is empty (the
end-marker test is compiled out by `#if 0`), followed by its two handlers. -/
def InstructionFetchStage.propagate (s : Pipeline) : Except Fault Pipeline :=
  match (Except.ok s : Except Fault Pipeline) with
  | Except.ok s1 => Except.ok s1
  | Except.error (Fault.TestEndMarkerEncountered a) =>
      Except.error (Fault.TestEndMarkerEncountered a)
  | Except.error _ => Except.error (Fault.InstructionFetchFailure s.PC)

def InstructionFetchStage.clockPulse (s : Pipeline) : Pipeline :=
  { s with if_id := { PC := s.PC } }

def InstructionDecodeStage.propagate (s : Pipeline) : Pipeline :=
  let s1 := { s with idPC := s.if_id.PC }
  if s1.debugMode && (!s1.pipelining || (s1.pipelining && s1.idPC != 0)) then
    { s1 with cerr := s1.cerr ++ [s1.idPC] }
  else s1

def InstructionDecodeStage.clockPulse (s : Pipeline) : Pipeline :=
  let s1 :=
    if !s.pipelining || (s.pipelining && s.idPC != 0) then
      { s with nInstrIssued := incr64 s.nInstrIssued }
    else s
  { s1 with id_ex := { PC := s1.idPC } }

def ExecuteStage.propagate (s : Pipeline) : Pipeline :=
  { s with exPC := s.id_ex.PC }

def ExecuteStage.clockPulse (s : Pipeline) : Pipeline :=
  { s with ex_m := { PC := s.exPC } }

def MemoryStage.propagate (s : Pipeline) : Pipeline :=
  { s with memPC := s.ex_m.PC }

def MemoryStage.clockPulse (s : Pipeline) : Pipeline :=
  { s with m_wb := { PC := s.memPC } }

def WriteBackStage.propagate (s : Pipeline) : Pipeline :=
  if !s.pipelining || (s.pipelining && s.m_wb.PC != 0) then
    { s with nInstrCompleted := incr64 s.nInstrCompleted }
  else s

def WriteBackStage.clockPulse (s : Pipeline) : Pipeline := s

/-- Virtual dispatch of `Stage::propagate`. -/
def StageId.propagate : StageId → Pipeline → Except Fault Pipeline
  | StageId.IF, s => InstructionFetchStage.propagate s
  | StageId.ID, s => Except.ok (InstructionDecodeStage.propagate s)
  | StageId.EX, s => Except.ok (ExecuteStage.propagate s)
  | StageId.MEM, s => Except.ok (MemoryStage.propagate s)
  | StageId.WB, s => Except.ok (WriteBackStage.propagate s)

/-- Virtual dispatch of `Stage::clockPulse`. -/
def StageId.clockPulse : StageId → Pipeline → Except Fault Pipeline
  | StageId.IF, s => Except.ok (InstructionFetchStage.clockPulse s)
  | StageId.ID, s => Except.ok (InstructionDecodeStage.clockPulse s)
  | StageId.EX, s => Except.ok (ExecuteStage.clockPulse s)
  | StageId.MEM, s => Except.ok (MemoryStage.clockPulse s)
  | StageId.WB, s => Except.ok (WriteBackStage.clockPulse s)

/-! ## pipeline.cc -/

/-- Run the `propagate` of the stages of `order`, first to last. -/
def propagateAll (order : List StageId) (s : Pipeline) : Except Fault Pipeline :=
  order.foldlM (fun acc st => st.propagate acc) s

/-- Run the `clockPulse` of the stages of `order`, first to last. -/
def clockPulseAll (order : List StageId) (s : Pipeline) : Except Fault Pipeline :=
  order.foldlM (fun acc st => st.clockPulse acc) s

def Pipeline.propagate (s : Pipeline) : Except Fault Pipeline :=
  if !s.pipelining then
    match stages[s.currentStage]? with
    | some st => st.propagate s
    | none => Except.error Fault.outOfRange
  else
    propagateAll stages s

def Pipeline.clockPulse (s : Pipeline) : Except Fault Pipeline :=
  if !s.pipelining then
    match stages[s.currentStage]? with
    | some st =>
      match st.clockPulse s with
      | Except.ok s1 =>
          Except.ok { s1 with currentStage := (s1.currentStage + 1) % stages.length }
      | Except.error f => Except.error f
    | none => Except.error Fault.outOfRange
  else
    clockPulseAll stages s

/-- One cycle of the pipeline: `propagate` followed by `clockPulse`. -/
def Pipeline.cycle (s : Pipeline) : Except Fault Pipeline :=
  match Pipeline.propagate s with
  | Except.ok s1 => Pipeline.clockPulse s1
  | Except.error f => Except.error f

/-- The first `n` cycles of the pipeline. -/
def Pipeline.cycles : Nat → Pipeline → Except Fault Pipeline
  | 0, s => Except.ok s
  | n + 1, s =>
    match Pipeline.cycle s with
    | Except.ok s1 => Pipeline.cycles n s1
    | Except.error f => Except.error f

/-- The members of the record that a stage writes, in its `propagate` or its
`clockPulse`: its private buffer, the latch behind it and its counter. -/
def StageId.owned : StageId → Pipeline → List Nat
  | StageId.IF, s => [s.if_id.PC]
  | StageId.ID, s => s.idPC :: s.id_ex.PC :: s.nInstrIssued :: s.cerr
  | StageId.EX, s => [s.exPC, s.ex_m.PC]
  | StageId.MEM, s => [s.memPC, s.m_wb.PC]
  | StageId.WB, s => [s.nInstrCompleted]

/-- The record a stage's `propagate` leaves behind; no stage of this program
throws (`StageId.propagate_eq`). -/
def StageId.propagated : StageId → Pipeline → Pipeline
  | StageId.IF, s => s
  | StageId.ID, s => InstructionDecodeStage.propagate s
  | StageId.EX, s => ExecuteStage.propagate s
  | StageId.MEM, s => MemoryStage.propagate s
  | StageId.WB, s => WriteBackStage.propagate s

/-- The record a stage's `clockPulse` leaves behind. -/
def StageId.pulsed : StageId → Pipeline → Pipeline
  | StageId.IF, s => InstructionFetchStage.clockPulse s
  | StageId.ID, s => InstructionDecodeStage.clockPulse s
  | StageId.EX, s => ExecuteStage.clockPulse s
  | StageId.MEM, s => MemoryStage.clockPulse s
  | StageId.WB, s => WriteBackStage.clockPulse s

/-- Well-formed records: the stage index is inside the stage vector.  Only
the non-pipelined mode uses the index. -/
def Pipeline.WF (s : Pipeline) : Prop :=
  s.pipelining = true ∨ s.currentStage < stages.length

/-- The pipeline as `Processor::Processor` leaves it: every member
value-initialised, the program counter at the entry point. -/
def Pipeline.fresh (pipelining debugMode : Bool) (entry : Nat) : Pipeline :=
  { pipelining := pipelining, debugMode := debugMode, PC := entry % wordSize }

/-! ## memory-control.cc (instruction side), processor.cc -/

/-- The memory bus together with its clients, among them the system-status
device.  Their sources (`memory-bus.h`, `sys-status.h`) are not available, so
the operations the processor uses are parameters.  `clockPulse` returns the
exception it threw, if any, and the bus as it is afterwards. -/
structure BusModel (β : Type) where
  clockPulse : β → Option Fault × β
  shouldHalt : β → Bool
  readWord : β → MemAddress → Except Fault RegValue
  readHalfWord : β → MemAddress → Except Fault RegValue

/-- `InstructionMemory::setSize`: the exception it threw, if any, and the
adapter as it is afterwards. -/
def InstructionMemory.setSize (im : InstructionMemory) (size : Nat) :
    Option Fault × InstructionMemory :=
  if size ≠ 2 ∧ size ≠ 4 then (some Fault.IllegalAccess, im)
  else (none, { im with size := size })

def InstructionMemory.setAddress (im : InstructionMemory) (addr : MemAddress) :
    InstructionMemory :=
  { im with addr := addr }

def InstructionMemory.getValue {β : Type} (M : BusModel β) (bus : β)
    (im : InstructionMemory) : Except Fault RegValue :=
  match im.size with
  | 2 => M.readHalfWord bus im.addr
  | 4 => M.readWord bus im.addr
  | _ => Except.error Fault.IllegalAccess

/-- The members of `Processor`: the cycle counter, the bus, and everything the
pipeline works on. -/
structure Processor (β : Type) where
  nCycles : Nat := 0
  bus : β
  pipeline : Pipeline

/-- `Processor::Processor`: the program's memories are in `bus`, its entry
point becomes the program counter. -/
def Processor.new {β : Type} (bus : β) (entry : Nat) (pipelining debugMode : Bool) :
    Processor β :=
  { bus := bus, pipeline := Pipeline.fresh pipelining debugMode entry }

def Processor.initRegister {β : Type} (p : Processor β) (regnum : RegNumber)
    (value : RegValue) : Processor β :=
  { p with pipeline :=
      { p.pipeline with regfile := p.pipeline.regfile.writeRegister regnum value } }

def Processor.getRegister {β : Type} (p : Processor β) (regnum : RegNumber) : RegValue :=
  p.pipeline.regfile.readRegister regnum

/-- The `launcher` of main.cc up to the call of `run`: construct the processor
and apply the register initializers in order. -/
def Processor.launch {β : Type} (bus : β) (entry : Nat) (pipelining debugMode : Bool)
    (initializers : List (RegNumber × RegValue)) : Processor β :=
  initializers.foldl (fun p i => p.initRegister i.1 i.2)
    (Processor.new bus entry pipelining debugMode)

/-- What one pass through the `try` block of `Processor::run` ends in: it ran
to its end, or an exception left it, with the processor as it is then. -/
inductive CycleResult (β : Type) where
  | done (p : Processor β)
  | raised (f : Fault) (p : Processor β)

/-- The `try` block of `Processor::run`: pulse the bus every fifth cycle, then
`pipeline.propagate()`, `pipeline.clockPulse()` and `++nCycles`. -/
def Processor.tryCycle {β : Type} (M : BusModel β) (p : Processor β) : CycleResult β :=
  let r := if p.nCycles % 5 = 0 then M.clockPulse p.bus else (none, p.bus)
  match r with
  | (some f, b) => CycleResult.raised f { p with bus := b }
  | (none, b) =>
    let p1 := { p with bus := b }
    match Pipeline.propagate p1.pipeline with
    | Except.error f => CycleResult.raised f p1
    | Except.ok pl1 =>
      match Pipeline.clockPulse pl1 with
      | Except.error f => CycleResult.raised f { p1 with pipeline := pl1 }
      | Except.ok pl2 =>
          CycleResult.done { p1 with pipeline := pl2, nCycles := incr64 p1.nCycles }

/-- `Processor::run`, with a bound `fuel` on the number of passes through the
loop body: `none` when the loop is still running after `fuel` passes, else the
returned flag and the processor at that moment. -/
def Processor.run {β : Type} (M : BusModel β) (testMode : Bool) :
    Nat → Processor β → Option (Bool × Processor β)
  | 0, p => if M.shouldHalt p.bus then some (true, p) else none
  | fuel + 1, p =>
    if M.shouldHalt p.bus then some (true, p)
    else
      match Processor.tryCycle M p with
      | CycleResult.raised (Fault.TestEndMarkerEncountered _) p1 =>
          if testMode then some (true, p1) else some (false, p1)
      | CycleResult.raised (Fault.InstructionFetchFailure _) p1 =>
          if testMode then some (true, p1) else some (false, p1)
      | CycleResult.raised _ p1 => some (false, p1)
      | CycleResult.done p1 => Processor.run M testMode fuel p1

/-- The processor after `k` passes through the loop body of `Processor::run`,
when none of them was stopped by the halt signal or left by an exception. -/
def Processor.cyclesDone {β : Type} (M : BusModel β) : Nat → Processor β → Option (Processor β)
  | 0, p => some p
  | k + 1, p =>
    if M.shouldHalt p.bus then none
    else
      match Processor.tryCycle M p with
      | CycleResult.done p1 => Processor.cyclesDone M k p1
      | CycleResult.raised _ _ => none

/-- What no operation of a stage or of the pipeline changes, the register file
apart. -/
def Pipeline.fixedPart (s : Pipeline) :
    Bool × Nat × Bool × MemAddress × Bool × Nat × Nat × Nat :=
  (s.pipelining, s.nStalls, s.debugMode, s.PC, s.flag,
    s.decoder.instructionWord, s.instructionMemory.size, s.instructionMemory.addr)

/-- A bus for examples.  Its state is the number of pulses it has had; the
status device asks for a halt once `haltAt` pulses have happened; every word
of memory reads as `word`. -/
def countingBus (haltAt : Nat) (word : RegValue) : BusModel Nat where
  clockPulse := fun b => (none, b + 1)
  shouldHalt := fun b => decide (haltAt ≤ b)
  readWord := fun _ _ => Except.ok word
  readHalfWord := fun _ _ => Except.ok (word % 2 ^ 16)

/-- A bus for examples whose pulse throws `f`; it never asks for a halt. -/
def throwingBus (f : Fault) : BusModel Nat where
  clockPulse := fun b => (some f, b)
  shouldHalt := fun _ => false
  readWord := fun _ _ => Except.error Fault.IllegalAccess
  readHalfWord := fun _ _ => Except.error Fault.IllegalAccess

/-- The observable outcome of a run: the returned flag, the cycle count, the
three statistics counters and the registers 0 to 31. -/
def Processor.outcome {β : Type} (r : Bool × Processor β) :
    Bool × Nat × Nat × Nat × Nat × List RegValue :=
  (r.1, r.2.nCycles, r.2.pipeline.nInstrIssued, r.2.pipeline.nInstrCompleted,
    r.2.pipeline.nStalls, (List.range NumRegs).map r.2.getRegister)

/-- The two exceptions that `Processor::run` turns into a successful return
in test mode. -/
def Fault.isFetchStop : Fault → Bool
  | Fault.TestEndMarkerEncountered _ => true
  | Fault.InstructionFetchFailure _ => true
  | _ => false

/-- The contents of the four inter-stage latches IF/ID, ID/EX, EX/MEM, MEM/WB. -/
def Pipeline.latches (s : Pipeline) : MemAddress × MemAddress × MemAddress × MemAddress :=
  (s.if_id.PC, s.id_ex.PC, s.ex_m.PC, s.m_wb.PC)

/-- What `view` shows of the record after `n` cycles; `none` if a cycle threw. -/
def Pipeline.after {α : Type} (n : Nat) (s : Pipeline) (view : Pipeline → α) : Option α :=
  match Pipeline.cycles n s with
  | Except.ok t => some (view t)
  | Except.error _ => none

/-- A non-pipelined record for examples: write-back is the active stage, the
latches hold different program counters. -/
def sampleRecord : Pipeline :=
  { pipelining := false, currentStage := 4, nInstrIssued := 3, nInstrCompleted := 2,
    if_id := { PC := 4 }, id_ex := { PC := 8 }, ex_m := { PC := 12 }, m_wb := { PC := 16 },
    PC := 20 }

/-- `InstructionMemory::InstructionMemory`: size 0, address 0. -/
def InstructionMemory.new : InstructionMemory := { size := 0, addr := 0 }

/-- A call of one of the two setters of an `InstructionMemory`. -/
inductive IMCall where
  | setSize (size : Nat)
  | setAddress (addr : MemAddress)

/-- The adapter after a call, whether the call threw or not. -/
def IMCall.apply (im : InstructionMemory) : IMCall → InstructionMemory
  | IMCall.setSize size => (im.setSize size).2
  | IMCall.setAddress addr => im.setAddress addr

/-- The call is a `setSize` that returns without throwing. -/
def IMCall.setsSize : IMCall → Prop
  | IMCall.setSize size => (InstructionMemory.new.setSize size).1 = none
  | IMCall.setAddress _ => False

/-! ## memory-control.cc (data side) -/

/-- The configuration a `DataMemory` adapter holds: the members that the
setters of memory-control.cc assign (`memory-control.h` is not among the
sources; no result below depends on their initial values). -/
structure DataMemory where
  size : Nat := 0
  addr : MemAddress := 0
  dataIn : RegValue := 0
  readEnable : Bool := false
  writeEnable : Bool := false

def DataMemory.setSize (dm : DataMemory) (size : Nat) : DataMemory :=
  { dm with size := size }

def DataMemory.setAddress (dm : DataMemory) (addr : MemAddress) : DataMemory :=
  { dm with addr := addr }

def DataMemory.setDataIn (dm : DataMemory) (value : RegValue) : DataMemory :=
  { dm with dataIn := value }

def DataMemory.setReadEnable (dm : DataMemory) (setting : Bool) : DataMemory :=
  { dm with readEnable := setting }

def DataMemory.setWriteEnable (dm : DataMemory) (setting : Bool) : DataMemory :=
  { dm with writeEnable := setting }

/-- `DataMemory::getDataOut`: its body is `return 0`. -/
def DataMemory.getDataOut {β : Type} (_M : BusModel β) (_bus : β) (_dm : DataMemory)
    (_signExtend : Bool) : Except Fault RegValue :=
  Except.ok 0

/-- `DataMemory::clockPulse`: its body is empty.  The result is the exception
thrown, if any, and the bus afterwards. -/
def DataMemory.clockPulse {β : Type} (_M : BusModel β) (bus : β) (_dm : DataMemory) :
    Option Fault × β :=
  (none, bus)

/-- From the words of the spec, for comparison with `DataMemory.getDataOut`:
the value `v` truncated to `size` bytes and sign- or zero-extended to a word. -/
def specLoadValue (size : Nat) (signExtend : Bool) (v : RegValue) : RegValue :=
  let t := v % 2 ^ (8 * size)
  if signExtend && decide (2 ^ (8 * size - 1) ≤ t) then
    (t + wordSize - 2 ^ (8 * size)) % wordSize
  else t % wordSize

/-! ## alu.h, alu.cc -/

/-- `enum class ALUOp`: the one enumerator `NOP` has the value 0; every other
value of the underlying type is a tag the ALU does not know. -/
structure ALUOp where
  tag : Int
  deriving DecidableEq

def ALUOp.NOP : ALUOp := { tag := 0 }

structure ALU where
  A : RegValue
  B : RegValue
  op : ALUOp

/-- `ALU::ALU()`: the three members are value-initialised. -/
def ALU.new : ALU := { A := 0, B := 0, op := { tag := 0 } }

def ALU.setA (u : ALU) (a : RegValue) : ALU := { u with A := a }

def ALU.setB (u : ALU) (b : RegValue) : ALU := { u with B := b }

def ALU.setOp (u : ALU) (op : ALUOp) : ALU := { u with op := op }

/-- `ALU::getResult` (not a `const` method): the word returned or the
exception thrown, and the ALU afterwards. -/
def ALU.getResult (u : ALU) : Except Fault RegValue × ALU :=
  let result : RegValue := 0
  if u.op = ALUOp.NOP then (Except.ok result, u)
  else (Except.error Fault.IllegalInstruction, u)

/-- A call of one of the four methods of an `ALU`. -/
inductive ALUCall where
  | setA (a : RegValue)
  | setB (b : RegValue)
  | setOp (op : ALUOp)
  | getResult

/-- The ALU after a call. -/
def ALUCall.apply (u : ALU) : ALUCall → ALU
  | ALUCall.setA a => u.setA a
  | ALUCall.setB b => u.setB b
  | ALUCall.setOp op => u.setOp op
  | ALUCall.getResult => u.getResult.2

/-! ## Register fields of an instruction word, from the spec -/

/-- From the words of the spec, for comparison with `InstructionDecoder.getD`:
bits 25..21 of the word. -/
def specFieldD (w : Nat) : RegNumber := (w / 2 ^ 21) % 32

/-- From the words of the spec, for comparison with `InstructionDecoder.getA`:
bits 20..16 of the word. -/
def specFieldA (w : Nat) : RegNumber := (w / 2 ^ 16) % 32

/-- From the words of the spec, for comparison with `InstructionDecoder.getB`:
bits 15..11 of the word. -/
def specFieldB (w : Nat) : RegNumber := (w / 2 ^ 11) % 32

/-- One pulse of the bus: the bus after `MemoryBus::clockPulse`. -/
def BusModel.pulse {β : Type} (M : BusModel β) (b : β) : β :=
  (M.clockPulse b).2

/-- What `view` shows of the record an operation returned; `none` if it threw. -/
def viewOk {α : Type} (r : Except Fault Pipeline) (view : Pipeline → α) : Option α :=
  match r with
  | Except.ok t => some (view t)
  | Except.error _ => none

/-- A pipelined record for examples: MEM/WB holds an instruction. -/
def samplePipelined : Pipeline :=
  { pipelining := true, nInstrIssued := 3, nInstrCompleted := 2,
    if_id := { PC := 4 }, id_ex := { PC := 8 }, ex_m := { PC := 12 }, m_wb := { PC := 16 },
    PC := 20 }

/-- The configuration of a store: address, size, data-in, write-enable on. -/
def DataMemory.storeSetup (dm : DataMemory) (addr : MemAddress) (size : Nat)
    (value : RegValue) : DataMemory :=
  (((dm.setAddress addr).setSize size).setDataIn value).setWriteEnable true

/-- The configuration of a load: address, size, write-enable off, read-enable on. -/
def DataMemory.loadSetup (dm : DataMemory) (addr : MemAddress) (size : Nat) : DataMemory :=
  (((dm.setAddress addr).setSize size).setWriteEnable false).setReadEnable true

/-- A store followed by a load of the same address and size: the adapter is
configured for the store and pulsed, then configured for the load, and
`getDataOut` is read from the bus the pulse left. -/
def DataMemory.storeThenLoad {β : Type} (M : BusModel β) (bus : β) (dm : DataMemory)
    (addr : MemAddress) (size : Nat) (value : RegValue) (signExtend : Bool) :
    Except Fault RegValue :=
  match DataMemory.clockPulse M bus (dm.storeSetup addr size value) with
  | (some f, _) => Except.error f
  | (none, bus1) =>
      DataMemory.getDataOut M bus1 ((dm.storeSetup addr size value).loadSetup addr size)
        signExtend

theorem StageId.propagate_eq (st : StageId) (s : Pipeline) :
    st.propagate s = Except.ok (st.propagated s) := by
  cases st <;> rfl

theorem StageId.clockPulse_eq (st : StageId) (s : Pipeline) :
    st.clockPulse s = Except.ok (st.pulsed s) := by
  cases st <;> rfl

theorem propagateAll_eq (order : List StageId) (s : Pipeline) :
    propagateAll order s = Except.ok (order.foldl (fun acc st => st.propagated acc) s) := by
  unfold propagateAll
  induction order generalizing s with
  | nil => rfl
  | cons st rest ih =>
    rw [List.foldlM_cons, StageId.propagate_eq]
    exact ih _

theorem clockPulseAll_eq (order : List StageId) (s : Pipeline) :
    clockPulseAll order s = Except.ok (order.foldl (fun acc st => st.pulsed acc) s) := by
  unfold clockPulseAll
  induction order generalizing s with
  | nil => rfl
  | cons st rest ih =>
    rw [List.foldlM_cons, StageId.clockPulse_eq]
    exact ih _

theorem stages_lookup {i : Nat} (h : i < stages.length) :
    ∃ st, stages[i]? = some st := by
  exact ⟨stages[i], List.getElem?_eq_getElem h⟩

theorem StageId.propagated_fixed (st : StageId) (s : Pipeline) :
    (st.propagated s).fixedPart = s.fixedPart ∧ (st.propagated s).regfile = s.regfile ∧
      (st.propagated s).currentStage = s.currentStage := by
  cases st <;>
    simp only [StageId.propagated, InstructionDecodeStage.propagate, ExecuteStage.propagate,
      MemoryStage.propagate, WriteBackStage.propagate, Pipeline.fixedPart] <;>
    (try split) <;> simp

theorem StageId.pulsed_fixed (st : StageId) (s : Pipeline) :
    (st.pulsed s).fixedPart = s.fixedPart ∧ (st.pulsed s).regfile = s.regfile ∧
      (st.pulsed s).currentStage = s.currentStage := by
  cases st <;>
    simp only [StageId.pulsed, InstructionFetchStage.clockPulse,
      InstructionDecodeStage.clockPulse, ExecuteStage.clockPulse,
      MemoryStage.clockPulse, WriteBackStage.clockPulse, Pipeline.fixedPart] <;>
    (try split) <;> simp

theorem Pipeline.fixedPart_pipelining {s t : Pipeline} (h : t.fixedPart = s.fixedPart) :
    t.pipelining = s.pipelining :=
  congrArg Prod.fst h

theorem foldl_propagated_fixed (order : List StageId) (s : Pipeline) :
    (order.foldl (fun acc st => st.propagated acc) s).fixedPart = s.fixedPart ∧
      (order.foldl (fun acc st => st.propagated acc) s).regfile = s.regfile ∧
      (order.foldl (fun acc st => st.propagated acc) s).currentStage = s.currentStage := by
  induction order generalizing s with
  | nil => exact ⟨rfl, rfl, rfl⟩
  | cons st rest ih =>
    obtain ⟨h1, h2, h3⟩ := ih (st.propagated s)
    obtain ⟨g1, g2, g3⟩ := StageId.propagated_fixed st s
    exact ⟨h1.trans g1, h2.trans g2, h3.trans g3⟩

theorem foldl_pulsed_fixed (order : List StageId) (s : Pipeline) :
    (order.foldl (fun acc st => st.pulsed acc) s).fixedPart = s.fixedPart ∧
      (order.foldl (fun acc st => st.pulsed acc) s).regfile = s.regfile ∧
      (order.foldl (fun acc st => st.pulsed acc) s).currentStage = s.currentStage := by
  induction order generalizing s with
  | nil => exact ⟨rfl, rfl, rfl⟩
  | cons st rest ih =>
    obtain ⟨h1, h2, h3⟩ := ih (st.pulsed s)
    obtain ⟨g1, g2, g3⟩ := StageId.pulsed_fixed st s
    exact ⟨h1.trans g1, h2.trans g2, h3.trans g3⟩

theorem Pipeline.propagate_np (s : Pipeline) (h : s.pipelining = false) (st : StageId)
    (hst : stages[s.currentStage]? = some st) :
    Pipeline.propagate s = Except.ok (st.propagated s) := by
  simp [Pipeline.propagate, h, hst, StageId.propagate_eq]

theorem Pipeline.clockPulse_np (s : Pipeline) (h : s.pipelining = false) (st : StageId)
    (hst : stages[s.currentStage]? = some st) :
    Pipeline.clockPulse s =
      Except.ok { st.pulsed s with currentStage := (s.currentStage + 1) % 5 } := by
  have hf := (StageId.pulsed_fixed st s).2.2
  have hl : stages.length = 5 := rfl
  simp [Pipeline.clockPulse, h, hst, StageId.clockPulse_eq, hf, hl]

theorem Pipeline.cycle_np (s : Pipeline) (h : s.pipelining = false) (st : StageId)
    (hst : stages[s.currentStage]? = some st) :
    Pipeline.cycle s =
      Except.ok { st.pulsed (st.propagated s) with
        currentStage := (s.currentStage + 1) % 5 } := by
  obtain ⟨h1, _, h3⟩ := StageId.propagated_fixed st s
  rw [Pipeline.cycle, Pipeline.propagate_np s h st hst]
  simp only
  rw [Pipeline.clockPulse_np _ ((Pipeline.fixedPart_pipelining h1).trans h) st
    (by rw [h3]; exact hst), h3]

theorem Pipeline.propagate_p (s : Pipeline) (h : s.pipelining = true) :
    Pipeline.propagate s =
      Except.ok (stages.foldl (fun acc st => st.propagated acc) s) := by
  simp [Pipeline.propagate, h, propagateAll_eq]

theorem Pipeline.clockPulse_p (s : Pipeline) (h : s.pipelining = true) :
    Pipeline.clockPulse s =
      Except.ok (stages.foldl (fun acc st => st.pulsed acc) s) := by
  simp [Pipeline.clockPulse, h, clockPulseAll_eq]

/-! ## The non-pipelined mode steps one stage per cycle -/

theorem StageId.owned_frame (st other : StageId) (h : other ≠ st) (s : Pipeline) (i : Nat) :
    other.owned { st.pulsed (st.propagated s) with currentStage := i } = other.owned s := by
  cases st <;> cases other <;> first
    | exact absurd rfl h
    | (simp only [StageId.owned, StageId.pulsed, StageId.propagated,
        InstructionFetchStage.clockPulse, InstructionDecodeStage.propagate,
        InstructionDecodeStage.clockPulse, ExecuteStage.propagate, ExecuteStage.clockPulse,
        MemoryStage.propagate, MemoryStage.clockPulse, WriteBackStage.propagate,
        WriteBackStage.clockPulse]
       repeat' split
       all_goals rfl)

theorem Pipeline.cycle_np_index (s : Pipeline) (h : s.pipelining = false)
    (hcs : s.currentStage < 5) :
    ∃ t, Pipeline.cycle s = Except.ok t ∧ t.pipelining = false ∧
      t.currentStage = (s.currentStage + 1) % 5 := by
  obtain ⟨st, hst⟩ := stages_lookup (i := s.currentStage) hcs
  refine ⟨_, Pipeline.cycle_np s h st hst, ?_, rfl⟩
  have h1 := Pipeline.fixedPart_pipelining (StageId.propagated_fixed st s).1
  have h2 := Pipeline.fixedPart_pipelining (StageId.pulsed_fixed st (st.propagated s)).1
  show (st.pulsed (st.propagated s)).pipelining = false
  rw [h2, h1, h]

theorem Pipeline.cycles_np_index (n : Nat) (s : Pipeline) (h : s.pipelining = false)
    (hcs : s.currentStage < 5) :
    ∃ t, Pipeline.cycles n s = Except.ok t ∧ t.pipelining = false ∧
      t.currentStage = (s.currentStage + n) % 5 := by
  induction n generalizing s with
  | zero => exact ⟨s, rfl, h, by simp [Nat.mod_eq_of_lt hcs]⟩
  | succ n ih =>
    obtain ⟨t, ht, hp, hi⟩ := Pipeline.cycle_np_index s h hcs
    obtain ⟨u, hu, hup, hui⟩ := ih t hp (by rw [hi]; exact Nat.mod_lt _ (by decide))
    refine ⟨u, ?_, hup, ?_⟩
    · simp only [Pipeline.cycles, ht]; exact hu
    · rw [hui, hi]; omega

/-- C1: in non-pipelined mode a cycle runs `propagate` and `clockPulse` of the
stage at the active index only (the members owned by every other stage keep
their values) and moves the index to `(index + 1) mod 5`; after `n` cycles the
index is `(index + n) mod 5`, so it is back after every five cycles, and from
a fresh pipeline the stage stepped in cycle `n + 1` is entry `n mod 5` of
fetch, decode, execute, memory, write-back. -/
theorem c1_round_robin (s : Pipeline) (hnp : s.pipelining = false)
    (hcs : s.currentStage < 5) :
    (∃ st, stages[s.currentStage]? = some st ∧
      ∃ s1 s2, st.propagate s = Except.ok s1 ∧ st.clockPulse s1 = Except.ok s2 ∧
        Pipeline.cycle s = Except.ok { s2 with currentStage := (s.currentStage + 1) % 5 } ∧
        ∀ other, other ≠ st →
          other.owned { s2 with currentStage := (s.currentStage + 1) % 5 } = other.owned s) ∧
    (∀ n, ∃ t, Pipeline.cycles n s = Except.ok t ∧ t.pipelining = false ∧
      t.currentStage = (s.currentStage + n) % 5) ∧
    (∀ k, ∃ t, Pipeline.cycles (5 * k) s = Except.ok t ∧ t.currentStage = s.currentStage) ∧
    (∀ debugMode entry n, ∃ t,
      Pipeline.cycles n (Pipeline.fresh false debugMode entry) = Except.ok t ∧
      stages[t.currentStage]? =
        [StageId.IF, StageId.ID, StageId.EX, StageId.MEM, StageId.WB][n % 5]?) := by
  refine ⟨?_, fun n => Pipeline.cycles_np_index n s hnp hcs, ?_, ?_⟩
  · obtain ⟨st, hst⟩ := stages_lookup (i := s.currentStage) hcs
    exact ⟨st, hst, _, _, StageId.propagate_eq st s, StageId.clockPulse_eq st _,
      Pipeline.cycle_np s hnp st hst, fun other ho => StageId.owned_frame st other ho s _⟩
  · intro k
    obtain ⟨t, ht, _, hi⟩ := Pipeline.cycles_np_index (5 * k) s hnp hcs
    exact ⟨t, ht, by rw [hi]; omega⟩
  · intro debugMode entry n
    obtain ⟨t, ht, _, hi⟩ :=
      Pipeline.cycles_np_index n (Pipeline.fresh false debugMode entry) rfl
        (show (0 : Nat) < 5 by decide)
    refine ⟨t, ht, ?_⟩
    have h0 : (Pipeline.fresh false debugMode entry).currentStage = 0 := rfl
    rw [hi, h0, Nat.zero_add]
    rfl

theorem c1_round_robin_witness :
    (Pipeline.fresh false false 4).pipelining = false ∧
    (Pipeline.fresh false false 4).currentStage < 5 ∧
    ∃ t, Pipeline.cycles 7 (Pipeline.fresh false false 4) = Except.ok t ∧
      t.pipelining = false ∧ t.currentStage = (0 + 7) % 5 :=
  ⟨rfl, by decide,
    (c1_round_robin (Pipeline.fresh false false 4) rfl (by decide)).2.1 7⟩

/-! ## Well-formed records: no pipeline operation throws -/

theorem Pipeline.propagate_wf (s : Pipeline) (h : s.WF) :
    ∃ s1, Pipeline.propagate s = Except.ok s1 ∧ s1.fixedPart = s.fixedPart ∧
      s1.regfile = s.regfile ∧ s1.currentStage = s.currentStage := by
  cases hp : s.pipelining with
  | true => exact ⟨_, Pipeline.propagate_p s hp, foldl_propagated_fixed stages s⟩
  | false =>
    have hlt : s.currentStage < stages.length := by
      rcases h with h | h
      · rw [hp] at h; cases h
      · exact h
    obtain ⟨st, hst⟩ := stages_lookup hlt
    exact ⟨_, Pipeline.propagate_np s hp st hst, StageId.propagated_fixed st s⟩

theorem Pipeline.clockPulse_wf (s : Pipeline) (h : s.WF) :
    ∃ t, Pipeline.clockPulse s = Except.ok t ∧ t.fixedPart = s.fixedPart ∧
      t.regfile = s.regfile ∧ t.WF := by
  cases hp : s.pipelining with
  | true =>
    obtain ⟨h1, h2, _⟩ := foldl_pulsed_fixed stages s
    exact ⟨_, Pipeline.clockPulse_p s hp, h1, h2,
      Or.inl ((Pipeline.fixedPart_pipelining h1).trans hp)⟩
  | false =>
    have hlt : s.currentStage < stages.length := by
      rcases h with h | h
      · rw [hp] at h; cases h
      · exact h
    obtain ⟨st, hst⟩ := stages_lookup hlt
    obtain ⟨h1, h2, _⟩ := StageId.pulsed_fixed st s
    exact ⟨_, Pipeline.clockPulse_np s hp st hst, h1, h2,
      Or.inr (Nat.mod_lt _ (by decide))⟩

theorem Pipeline.cycle_wf (s : Pipeline) (h : s.WF) :
    ∃ s1 t, Pipeline.propagate s = Except.ok s1 ∧ Pipeline.clockPulse s1 = Except.ok t ∧
      Pipeline.cycle s = Except.ok t ∧ t.fixedPart = s.fixedPart ∧
      t.regfile = s.regfile ∧ t.WF := by
  obtain ⟨s1, h1, hf1, hr1, hc1⟩ := Pipeline.propagate_wf s h
  have hw1 : s1.WF := by
    rcases h with h | h
    · exact Or.inl ((Pipeline.fixedPart_pipelining hf1).trans h)
    · exact Or.inr (by rw [hc1]; exact h)
  obtain ⟨t, h2, hf2, hr2, hw2⟩ := Pipeline.clockPulse_wf s1 hw1
  refine ⟨s1, t, h1, h2, ?_, hf2.trans hf1, hr2.trans hr1, hw2⟩
  simp only [Pipeline.cycle, h1, h2]

theorem Pipeline.fresh_wf (pipelining debugMode : Bool) (entry : Nat) :
    (Pipeline.fresh pipelining debugMode entry).WF :=
  Or.inr (show (0 : Nat) < 5 by decide)

/-! ## The run loop -/

/-- The loop body on a well-formed processor: only the bus pulse can throw. -/
theorem Processor.tryCycle_wf {β : Type} (M : BusModel β) (p : Processor β)
    (h : p.pipeline.WF) :
    ∃ t, Pipeline.cycle p.pipeline = Except.ok t ∧ t.fixedPart = p.pipeline.fixedPart ∧
      t.regfile = p.pipeline.regfile ∧ t.WF ∧
      Processor.tryCycle M p =
        match (if p.nCycles % 5 = 0 then M.clockPulse p.bus else (none, p.bus)) with
        | (some f, b) => CycleResult.raised f { p with bus := b }
        | (none, b) =>
            CycleResult.done { nCycles := incr64 p.nCycles, bus := b, pipeline := t } := by
  obtain ⟨s1, t, h1, h2, h3, hf, hr, hw⟩ := Pipeline.cycle_wf p.pipeline h
  refine ⟨t, h3, hf, hr, hw, ?_⟩
  unfold Processor.tryCycle
  rcases (if p.nCycles % 5 = 0 then M.clockPulse p.bus else (none, p.bus)) with ⟨_ | f, b⟩
  · simp only [h1, h2]
  · rfl

theorem Processor.run_halt {β : Type} (M : BusModel β) (testMode : Bool) (fuel : Nat)
    (p : Processor β) (h : M.shouldHalt p.bus = true) :
    Processor.run M testMode fuel p = some (true, p) := by
  cases fuel <;> simp [Processor.run, h]

theorem Processor.run_done {β : Type} (M : BusModel β) (testMode : Bool) (fuel : Nat)
    (p p1 : Processor β) (h : M.shouldHalt p.bus = false)
    (hc : Processor.tryCycle M p = CycleResult.done p1) :
    Processor.run M testMode (fuel + 1) p = Processor.run M testMode fuel p1 := by
  simp [Processor.run, h, hc]

theorem Processor.run_raised {β : Type} (M : BusModel β) (testMode : Bool) (fuel : Nat)
    (p p1 : Processor β) (f : Fault) (h : M.shouldHalt p.bus = false)
    (hc : Processor.tryCycle M p = CycleResult.raised f p1) :
    Processor.run M testMode (fuel + 1) p = some (testMode && f.isFetchStop, p1) := by
  cases f <;> cases testMode <;> simp [Processor.run, h, hc, Fault.isFetchStop]

/-- What the equality of the completed counts of the two modes rests on.  The
bus of this example raises the halt signal by itself at its second pulse,
without any store, which `BusModel.HaltNeedsStore` excludes.  With it both
runs return `true` after 6 cycles with the same registers, the pipelined run
with 2 completed instructions and the non-pipelined run with 1. -/
theorem Processor.self_halting_bus_counts :
    (Processor.run (countingBus 2 0) false 10
        (Processor.launch 0 4 true false [(3, 12)])).map Processor.outcome =
      some (true, 6, 5, 2, 0,
        [0, 0, 0, 12, 0, 0, 0, 0, 0, 0, 0, 0, 0, 0, 0, 0,
         0, 0, 0, 0, 0, 0, 0, 0, 0, 0, 0, 0, 0, 0, 0, 0]) ∧
    (Processor.run (countingBus 2 0) false 10
        (Processor.launch 0 4 false false [(3, 12)])).map Processor.outcome =
      some (true, 6, 1, 1, 0,
        [0, 0, 0, 12, 0, 0, 0, 0, 0, 0, 0, 0, 0, 0, 0, 0,
         0, 0, 0, 0, 0, 0, 0, 0, 0, 0, 0, 0, 0, 0, 0, 0]) := by
  constructor <;> rfl

/-- Any two stages' `propagate` operations commute: each writes members that
no other stage's `propagate` reads or writes. -/
theorem StageId.propagated_comm (a b : StageId) (s : Pipeline) :
    b.propagated (a.propagated s) = a.propagated (b.propagated s) := by
  cases a <;> cases b <;> first
    | rfl
    | (simp only [StageId.propagated, InstructionDecodeStage.propagate,
        ExecuteStage.propagate, MemoryStage.propagate, WriteBackStage.propagate]
       repeat' split
       all_goals rfl)

/-- C3: the five `propagate` operations may run in any order: for every record
and every permutation `order` of the five stages, running them in that order
gives the same record (buffers, latches, counters and all other members) as
running them in the order fetch, decode, execute, memory, write-back, which is
what `Pipeline.propagate` does in pipelined mode. -/
theorem c3_propagate_order_independent (s : Pipeline) (order : List StageId)
    (h : order.Perm [StageId.IF, StageId.ID, StageId.EX, StageId.MEM, StageId.WB]) :
    propagateAll order s =
        propagateAll [StageId.IF, StageId.ID, StageId.EX, StageId.MEM, StageId.WB] s ∧
      (s.pipelining = true → propagateAll order s = Pipeline.propagate s) := by
  have key : propagateAll order s =
      propagateAll [StageId.IF, StageId.ID, StageId.EX, StageId.MEM, StageId.WB] s := by
    rw [propagateAll_eq, propagateAll_eq]
    exact congrArg Except.ok
      (List.Perm.foldl_eq' h (fun x _ y _ z => StageId.propagated_comm x y z) s)
  refine ⟨key, fun hp => ?_⟩
  rw [key]
  simp [Pipeline.propagate, hp, stages]

theorem c3_propagate_order_independent_witness :
    propagateAll [StageId.WB, StageId.MEM, StageId.EX, StageId.ID, StageId.IF]
        (Pipeline.fresh true true 4) =
      propagateAll [StageId.IF, StageId.ID, StageId.EX, StageId.MEM, StageId.WB]
        (Pipeline.fresh true true 4) :=
  (c3_propagate_order_independent (Pipeline.fresh true true 4)
    [StageId.WB, StageId.MEM, StageId.EX, StageId.ID, StageId.IF]
    (List.reverse_perm [StageId.IF, StageId.ID, StageId.EX, StageId.MEM, StageId.WB])).1

/-- One cycle in pipelined mode, member by member: every latch takes the
program counter held one stage upstream, the counters count the non-zero
program counters in decode and in MEM/WB. -/
theorem Pipeline.cycle_p (s : Pipeline) (hp : s.pipelining = true) :
    ∃ t, Pipeline.cycle s = Except.ok t ∧ t.pipelining = true ∧ t.PC = s.PC ∧
      t.if_id.PC = s.PC ∧ t.id_ex.PC = s.if_id.PC ∧ t.ex_m.PC = s.id_ex.PC ∧
      t.m_wb.PC = s.ex_m.PC ∧ t.nStalls = s.nStalls ∧
      t.nInstrIssued = (if s.if_id.PC = 0 then s.nInstrIssued else incr64 s.nInstrIssued) ∧
      t.nInstrCompleted =
        (if s.m_wb.PC = 0 then s.nInstrCompleted else incr64 s.nInstrCompleted) := by
  have h1 := Pipeline.propagate_p s hp
  have hq : (stages.foldl (fun acc st => st.propagated acc) s).pipelining = true :=
    (Pipeline.fixedPart_pipelining (foldl_propagated_fixed stages s).1).trans hp
  have h2 := Pipeline.clockPulse_p _ hq
  have h3 : Pipeline.cycle s = Except.ok (stages.foldl (fun acc st => st.pulsed acc)
      (stages.foldl (fun acc st => st.propagated acc) s)) := by
    simp only [Pipeline.cycle, h1, h2]
  refine ⟨_, h3, ?_⟩
  simp only [stages, List.foldl, StageId.propagated, StageId.pulsed,
    InstructionFetchStage.clockPulse, InstructionDecodeStage.propagate,
    InstructionDecodeStage.clockPulse, ExecuteStage.propagate, ExecuteStage.clockPulse,
    MemoryStage.propagate, MemoryStage.clockPulse, WriteBackStage.propagate,
    WriteBackStage.clockPulse, hp]
  by_cases ha : s.if_id.PC = 0 <;> by_cases hb : s.m_wb.PC = 0 <;>
    cases hd : s.debugMode <;> simp [ha, hb, hd, hp]

theorem StageId.propagated_latches (st : StageId) (s : Pipeline) :
    (st.propagated s).latches = s.latches := by
  cases st <;>
    simp only [StageId.propagated, InstructionDecodeStage.propagate, ExecuteStage.propagate,
      MemoryStage.propagate, WriteBackStage.propagate, Pipeline.latches] <;>
    (try split) <;> rfl

theorem foldl_propagated_latches (order : List StageId) (s : Pipeline) :
    (order.foldl (fun acc st => st.propagated acc) s).latches = s.latches := by
  induction order generalizing s with
  | nil => rfl
  | cons st rest ih => exact (ih (st.propagated s)).trans (StageId.propagated_latches st s)

/-- C4: on every well-formed record, pipelined or not, `Pipeline.propagate`
returns and leaves the four latches IF/ID, ID/EX, EX/MEM, MEM/WB and the
program counter as they were; so does the `propagate` of each single stage. -/
theorem c4_propagate_keeps_latches (s : Pipeline) (hw : s.WF) :
    (∃ s1, Pipeline.propagate s = Except.ok s1 ∧ s1.if_id = s.if_id ∧ s1.id_ex = s.id_ex ∧
      s1.ex_m = s.ex_m ∧ s1.m_wb = s.m_wb ∧ s1.PC = s.PC) ∧
    (∀ st : StageId, ∃ s1, st.propagate s = Except.ok s1 ∧ s1.if_id = s.if_id ∧
      s1.id_ex = s.id_ex ∧ s1.ex_m = s.ex_m ∧ s1.m_wb = s.m_wb ∧ s1.PC = s.PC) := by
  have stage : ∀ (st : StageId) (u : Pipeline), ∃ s1, st.propagate u = Except.ok s1 ∧
      s1.if_id = u.if_id ∧ s1.id_ex = u.id_ex ∧ s1.ex_m = u.ex_m ∧ s1.m_wb = u.m_wb ∧
      s1.PC = u.PC := by
    intro st u
    refine ⟨_, StageId.propagate_eq st u, ?_⟩
    have hl := StageId.propagated_latches st u
    have hf := (StageId.propagated_fixed st u).1
    simp only [Pipeline.latches, Pipeline.fixedPart, Prod.mk.injEq] at hl hf
    exact ⟨congrArg IF_IDRegisters.mk hl.1, congrArg ID_EXRegisters.mk hl.2.1,
      congrArg EX_MRegisters.mk hl.2.2.1, congrArg M_WBRegisters.mk hl.2.2.2, hf.2.2.2.1⟩
  refine ⟨?_, fun st => stage st s⟩
  cases hp : s.pipelining with
  | true =>
    refine ⟨_, Pipeline.propagate_p s hp, ?_⟩
    have hl := foldl_propagated_latches stages s
    have hf := (foldl_propagated_fixed stages s).1
    simp only [Pipeline.latches, Pipeline.fixedPart, Prod.mk.injEq] at hl hf
    exact ⟨congrArg IF_IDRegisters.mk hl.1, congrArg ID_EXRegisters.mk hl.2.1,
      congrArg EX_MRegisters.mk hl.2.2.1, congrArg M_WBRegisters.mk hl.2.2.2, hf.2.2.2.1⟩
  | false =>
    have hlt : s.currentStage < stages.length := by
      rcases hw with h | h
      · rw [hp] at h; cases h
      · exact h
    obtain ⟨st, hst⟩ := stages_lookup hlt
    obtain ⟨s1, h1, hrest⟩ := stage st s
    refine ⟨s1, ?_, hrest⟩
    rw [Pipeline.propagate_np s hp st hst, ← h1, StageId.propagate_eq]

theorem c4_propagate_keeps_latches_witness :
    sampleRecord.WF ∧
    ∃ s1, Pipeline.propagate sampleRecord = Except.ok s1 ∧
      s1.if_id = sampleRecord.if_id ∧ s1.id_ex = sampleRecord.id_ex ∧
      s1.ex_m = sampleRecord.ex_m ∧ s1.m_wb = sampleRecord.m_wb ∧ s1.PC = sampleRecord.PC :=
  ⟨Or.inr (by decide), (c4_propagate_keeps_latches sampleRecord (Or.inr (by decide))).1⟩

/-! ## Return value of the run loop -/

/-- An exception leaves the loop body before `++nCycles`. -/
theorem Processor.tryCycle_raised_nCycles {β : Type} (M : BusModel β) (p p1 : Processor β)
    (f : Fault) (h : Processor.tryCycle M p = CycleResult.raised f p1) :
    p1.nCycles = p.nCycles := by
  unfold Processor.tryCycle at h
  generalize (if p.nCycles % 5 = 0 then M.clockPulse p.bus else (none, p.bus)) = r at h
  rcases r with ⟨_ | g, b⟩
  · dsimp only at h
    cases h1 : Pipeline.propagate p.pipeline with
    | error e =>
      rw [h1] at h
      injection h with _ h3
      rw [← h3]
    | ok s1 =>
      rw [h1] at h
      dsimp only at h
      cases h2 : Pipeline.clockPulse s1 with
      | error e =>
        rw [h2] at h
        injection h with _ h3
        rw [← h3]
      | ok s2 =>
        rw [h2] at h
        cases h
  · dsimp only at h
    injection h with _ h3
    rw [← h3]

/-- Passes of the loop body that ran to their end use up one unit of fuel each. -/
theorem Processor.run_after_cyclesDone {β : Type} (M : BusModel β) (testMode : Bool)
    (k fuel : Nat) (p0 p : Processor β) (h : Processor.cyclesDone M k p0 = some p) :
    Processor.run M testMode (k + fuel) p0 = Processor.run M testMode fuel p := by
  induction k generalizing p0 with
  | zero =>
    simp only [Processor.cyclesDone, Option.some.injEq] at h
    rw [h, Nat.zero_add]
  | succ k ih =>
    unfold Processor.cyclesDone at h
    cases hh : M.shouldHalt p0.bus with
    | true => simp [hh] at h
    | false =>
      simp only [hh, Bool.false_eq_true, if_false] at h
      cases hc : Processor.tryCycle M p0 with
      | raised f q => simp [hc] at h
      | done q =>
        simp only [hc] at h
        rw [show k + 1 + fuel = (k + fuel) + 1 by omega,
          Processor.run_done M testMode (k + fuel) p0 q hh hc]
        exact ih q h

/-- C5: when, after any number `k` of completed cycles, a cycle raises
`TestEndMarkerEncountered` or `InstructionFetchFailure`, `Processor.run`
returns `true` in test mode and `false` otherwise, whatever fuel is left; the
processor it returns is the one at the throw, with the cycle count still that
of the start of the raising cycle, so no further cycle has run. -/
theorem c5_fetch_stop_returns_testMode {β : Type} (M : BusModel β) (testMode : Bool)
    (k fuel : Nat) (p0 p p1 : Processor β) (f : Fault)
    (hk : Processor.cyclesDone M k p0 = some p)
    (hh : M.shouldHalt p.bus = false)
    (hc : Processor.tryCycle M p = CycleResult.raised f p1)
    (hf : (∃ a, f = Fault.TestEndMarkerEncountered a) ∨
      (∃ a, f = Fault.InstructionFetchFailure a)) :
    Processor.run M testMode (k + (fuel + 1)) p0 = some (testMode, p1) ∧
      p1.nCycles = p.nCycles := by
  refine ⟨?_, Processor.tryCycle_raised_nCycles M p p1 f hc⟩
  rw [Processor.run_after_cyclesDone M testMode k (fuel + 1) p0 p hk,
    Processor.run_raised M testMode fuel p p1 f hh hc]
  rcases hf with ⟨a, rfl⟩ | ⟨a, rfl⟩ <;> simp [Fault.isFetchStop]

theorem c5_fetch_stop_returns_testMode_witness :
    (Processor.run (throwingBus (Fault.TestEndMarkerEncountered 4)) true (0 + (3 + 1))
        (Processor.new 0 4 true false) =
      some (true, Processor.new 0 4 true false) ∧
     (Processor.new (0 : Nat) 4 true false).nCycles =
      (Processor.new (0 : Nat) 4 true false).nCycles) ∧
    (Processor.run (throwingBus (Fault.InstructionFetchFailure 4)) false (0 + (3 + 1))
        (Processor.new 0 4 false false) =
      some (false, Processor.new 0 4 false false) ∧
     (Processor.new (0 : Nat) 4 false false).nCycles =
      (Processor.new (0 : Nat) 4 false false).nCycles) :=
  ⟨c5_fetch_stop_returns_testMode (throwingBus (Fault.TestEndMarkerEncountered 4)) true 0 3
      (Processor.new 0 4 true false) (Processor.new 0 4 true false)
      (Processor.new 0 4 true false) (Fault.TestEndMarkerEncountered 4) rfl rfl rfl
      (Or.inl ⟨4, rfl⟩),
    c5_fetch_stop_returns_testMode (throwingBus (Fault.InstructionFetchFailure 4)) false 0 3
      (Processor.new 0 4 false false) (Processor.new 0 4 false false)
      (Processor.new 0 4 false false) (Fault.InstructionFetchFailure 4) rfl rfl rfl
      (Or.inr ⟨4, rfl⟩)⟩

/-- C6: when a cycle raises any exception other than `TestEndMarkerEncountered`
and `InstructionFetchFailure`, `Processor.run` returns `false` for both values
of `testMode`; when the halt signal is seen after `k` completed cycles it
returns `true`; and when the halt signal is already up on entry it returns
`true` at once, for every fuel, with the processor (cycle count included)
untouched. -/
theorem c6_other_faults_and_halt {β : Type} (M : BusModel β) (testMode : Bool)
    (k fuel : Nat) (p0 p : Processor β)
    (hk : Processor.cyclesDone M k p0 = some p) :
    (∀ (f : Fault) (p1 : Processor β), M.shouldHalt p.bus = false →
      Processor.tryCycle M p = CycleResult.raised f p1 →
      (∀ a, f ≠ Fault.TestEndMarkerEncountered a) →
      (∀ a, f ≠ Fault.InstructionFetchFailure a) →
      Processor.run M testMode (k + (fuel + 1)) p0 = some (false, p1)) ∧
    (M.shouldHalt p.bus = true →
      Processor.run M testMode (k + fuel) p0 = some (true, p)) ∧
    (M.shouldHalt p0.bus = true →
      Processor.run M testMode fuel p0 = some (true, p0)) := by
  refine ⟨?_, ?_, fun h0 => Processor.run_halt M testMode fuel p0 h0⟩
  · intro f p1 hh hc h1 h2
    rw [Processor.run_after_cyclesDone M testMode k (fuel + 1) p0 p hk,
      Processor.run_raised M testMode fuel p p1 f hh hc]
    cases f with
    | TestEndMarkerEncountered a => exact absurd rfl (h1 a)
    | InstructionFetchFailure a => exact absurd rfl (h2 a)
    | _ => simp [Fault.isFetchStop]
  · intro hh
    rw [Processor.run_after_cyclesDone M testMode k fuel p0 p hk]
    exact Processor.run_halt M testMode fuel p hh

theorem c6_other_faults_and_halt_witness :
    Processor.run (throwingBus Fault.IllegalInstruction) true (0 + (3 + 1))
        (Processor.new 0 4 true false) = some (false, Processor.new 0 4 true false) ∧
    Processor.run (throwingBus Fault.IllegalAccess) false (0 + (3 + 1))
        (Processor.new 0 4 false false) = some (false, Processor.new 0 4 false false) ∧
    (∃ p, Processor.cyclesDone (countingBus 1 0) 1 (Processor.new 0 4 false false) = some p ∧
      Processor.run (countingBus 1 0) false (1 + 0) (Processor.new 0 4 false false) =
        some (true, p)) ∧
    Processor.run (countingBus 0 0) true 0 (Processor.new 0 4 true false) =
      some (true, Processor.new 0 4 true false) :=
  have h : (Processor.cyclesDone (countingBus 1 0) 1
      (Processor.new 0 4 false false)).isSome = true := by decide
  have hs : (countingBus 1 0).shouldHalt ((Processor.cyclesDone (countingBus 1 0) 1
      (Processor.new 0 4 false false)).get h).bus = true := rfl
  ⟨(c6_other_faults_and_halt (throwingBus Fault.IllegalInstruction) true 0 3
      (Processor.new 0 4 true false) (Processor.new 0 4 true false) rfl).1
      Fault.IllegalInstruction (Processor.new 0 4 true false) rfl rfl
      (fun _ e => by cases e) (fun _ e => by cases e),
    (c6_other_faults_and_halt (throwingBus Fault.IllegalAccess) false 0 3
      (Processor.new 0 4 false false) (Processor.new 0 4 false false) rfl).1
      Fault.IllegalAccess (Processor.new 0 4 false false) rfl rfl
      (fun _ e => by cases e) (fun _ e => by cases e),
    ⟨_, (Option.some_get h).symm,
      (c6_other_faults_and_halt (countingBus 1 0) false 1 0 (Processor.new 0 4 false false) _
        (Option.some_get h).symm).2.1 hs⟩,
    (c6_other_faults_and_halt (countingBus 0 0) true 0 0 (Processor.new 0 4 true false)
      (Processor.new 0 4 true false) rfl).2.2 rfl⟩

/-! ## Fetch -/

theorem Pipeline.cycles_wf (n : Nat) (s : Pipeline) (h : s.WF) :
    ∃ t, Pipeline.cycles n s = Except.ok t ∧ t.fixedPart = s.fixedPart ∧
      t.regfile = s.regfile ∧ t.WF := by
  induction n generalizing s with
  | zero => exact ⟨s, rfl, rfl, rfl, h⟩
  | succ n ih =>
    obtain ⟨_, s1, _, _, h3, hf, hr, hw⟩ := Pipeline.cycle_wf s h
    obtain ⟨t, ht, hf2, hr2, hw2⟩ := ih s1 hw
    exact ⟨t, by simp only [Pipeline.cycles, h3, ht], hf2.trans hf, hr2.trans hr, hw2⟩

theorem Pipeline.after_eq {α : Type} (n : Nat) (s t : Pipeline) (view : Pipeline → α)
    (h : Pipeline.cycles n s = Except.ok t) : Pipeline.after n s view = some (view t) := by
  simp only [Pipeline.after, h]

/-- C7, counterexample: instruction memory holds the end marker 0x40ffccff at
the program counter 4, yet the fetch stage's `propagate` returns normally, the
cycle runs to its end with the cycle count incremented, and `run` in test mode
is still running after 12 cycles, in both modes. -/
theorem c7_end_marker_not_detected :
    InstructionMemory.getValue (countingBus 1000 TestEndMarker) 0 { size := 4, addr := 4 } =
      Except.ok 0x40ffccff ∧
    (Processor.new (0 : Nat) 4 true false).pipeline.PC = 4 ∧
    InstructionFetchStage.propagate (Processor.new (0 : Nat) 4 true false).pipeline =
      Except.ok (Processor.new (0 : Nat) 4 true false).pipeline ∧
    (Processor.cyclesDone (countingBus 1000 TestEndMarker) 1
      (Processor.new 0 4 true false)).map Processor.nCycles = some 1 ∧
    (Processor.cyclesDone (countingBus 1000 TestEndMarker) 1
      (Processor.new 0 4 false false)).map Processor.nCycles = some 1 ∧
    (Processor.run (countingBus 1000 TestEndMarker) true 12
      (Processor.new 0 4 true false)).isSome = false ∧
    (Processor.run (countingBus 1000 TestEndMarker) true 12
      (Processor.new 0 4 false false)).isSome = false := by
  refine ⟨rfl, rfl, rfl, ?_, ?_, ?_, ?_⟩ <;> decide

/-- C7, amended: whatever word instruction memory holds at the program counter
(the end marker included), the fetch stage's `propagate` raises nothing and
changes nothing; unless the halt signal is up or the bus pulse throws, the
cycle runs to its end, the cycle count is incremented, and `run` goes on with
the next cycle for both values of `testMode`. -/
theorem c7_fetch_raises_nothing {β : Type} (M : BusModel β) (p : Processor β)
    (hw : p.pipeline.WF) (hh : M.shouldHalt p.bus = false)
    (hb : (if p.nCycles % 5 = 0 then M.clockPulse p.bus else (none, p.bus)).1 = none) :
    InstructionFetchStage.propagate p.pipeline = Except.ok p.pipeline ∧
    ∃ p1, Processor.tryCycle M p = CycleResult.done p1 ∧ p1.nCycles = incr64 p.nCycles ∧
      ∀ testMode fuel,
        Processor.run M testMode (fuel + 1) p = Processor.run M testMode fuel p1 := by
  refine ⟨rfl, ?_⟩
  obtain ⟨t, _, _, _, _, hc⟩ := Processor.tryCycle_wf M p hw
  rcases hr : (if p.nCycles % 5 = 0 then M.clockPulse p.bus else (none, p.bus))
    with ⟨_ | f, b⟩
  · rw [hr] at hc
    exact ⟨_, hc, rfl, fun testMode fuel => Processor.run_done M testMode fuel p _ hh hc⟩
  · rw [hr] at hb
    cases hb

theorem c7_fetch_raises_nothing_witness :
    InstructionFetchStage.propagate (Processor.new (0 : Nat) 4 true false).pipeline =
      Except.ok (Processor.new (0 : Nat) 4 true false).pipeline ∧
    ∃ p1, Processor.tryCycle (countingBus 1000 TestEndMarker) (Processor.new 0 4 true false) =
        CycleResult.done p1 ∧
      p1.nCycles = incr64 (Processor.new (0 : Nat) 4 true false).nCycles ∧
      ∀ testMode fuel,
        Processor.run (countingBus 1000 TestEndMarker) testMode (fuel + 1)
            (Processor.new 0 4 true false) =
          Processor.run (countingBus 1000 TestEndMarker) testMode fuel p1 :=
  c7_fetch_raises_nothing (countingBus 1000 TestEndMarker) (Processor.new 0 4 true false)
    (Pipeline.fresh_wf true false 4) rfl rfl

/-- C8, counterexample: at program counter 8 the fetch stage's `clockPulse`
stores 8 in IF/ID but leaves the program counter at 8, not at 8 + 4 = 12; it
is still 8 after a whole pipelined cycle and after five non-pipelined cycles. -/
theorem c8_pc_not_advanced :
    (InstructionFetchStage.clockPulse (Pipeline.fresh true false 8)).if_id.PC = 8 ∧
    (InstructionFetchStage.clockPulse (Pipeline.fresh true false 8)).PC = 8 ∧
    (8 + INSTRUCTION_SIZE) % wordSize = 12 ∧
    Pipeline.after 1 (Pipeline.fresh true false 8) Pipeline.PC = some 8 ∧
    Pipeline.after 5 (Pipeline.fresh false false 8) Pipeline.PC = some 8 := by
  decide

/-- C8, amended: for every program counter value `p`, the fetch stage's
`clockPulse` stores `p` in the IF/ID latch and leaves the program counter at
`p`; no number of cycles, in either mode, changes the program counter. -/
theorem c8_fetch_latches_pc (s : Pipeline) (hw : s.WF) :
    (InstructionFetchStage.clockPulse s).if_id.PC = s.PC ∧
    (InstructionFetchStage.clockPulse s).PC = s.PC ∧
    ∀ n, ∃ t, Pipeline.cycles n s = Except.ok t ∧ t.PC = s.PC := by
  refine ⟨rfl, rfl, fun n => ?_⟩
  obtain ⟨t, ht, hf, _, _⟩ := Pipeline.cycles_wf n s hw
  simp only [Pipeline.fixedPart, Prod.mk.injEq] at hf
  exact ⟨t, ht, hf.2.2.2.1⟩

theorem c8_fetch_latches_pc_witness :
    sampleRecord.WF ∧
    (InstructionFetchStage.clockPulse sampleRecord).if_id.PC = sampleRecord.PC ∧
    (InstructionFetchStage.clockPulse sampleRecord).PC = sampleRecord.PC ∧
    ∀ n, ∃ t, Pipeline.cycles n sampleRecord = Except.ok t ∧ t.PC = sampleRecord.PC :=
  ⟨Or.inr (by decide), c8_fetch_latches_pc sampleRecord (Or.inr (by decide))⟩

/-! ## Decode: stalls and the issued count -/

/-- C9, counterexample: pipelined, fresh, program counter 4.  After two cycles
decode holds the instruction of IF/ID (PC 4) while the one issued before it is
in flight in ID/EX (PC 4), and the decoder gives the former a source register
(`getA`) equal to the destination register (`getD`) of the latter.  The third
cycle issues it all the same (the issued count goes from 1 to 2) and the stall
counter is 0 then and still 0 after ten cycles. -/
theorem c9_no_stall_on_hazard :
    Pipeline.after 2 (Pipeline.fresh true false 4)
        (fun s => (s.if_id.PC, s.id_ex.PC, s.decoder.getA, s.decoder.getD,
          s.nInstrIssued, s.nStalls)) = some (4, 4, 0, 0, 1, 0) ∧
    Pipeline.after 3 (Pipeline.fresh true false 4)
        (fun s => (s.if_id.PC, s.id_ex.PC, s.nInstrIssued, s.nStalls)) = some (4, 4, 2, 0) ∧
    Pipeline.after 10 (Pipeline.fresh true false 4)
        (fun s => (s.nInstrIssued, s.nStalls)) = some (9, 0) := by
  decide

/-- C9, amended: in pipelined mode the decode stage never stalls: whatever the
instructions in flight, a cycle passes the program counter held in IF/ID on to
ID/EX, refills IF/ID from the program counter and leaves the stall counter as
it is; so the counter keeps its value over any number of cycles, and it is 0
after any number of cycles from a fresh pipeline. -/
theorem c9_decode_never_stalls (s : Pipeline) (hp : s.pipelining = true) :
    (∃ t, Pipeline.cycle s = Except.ok t ∧ t.id_ex.PC = s.if_id.PC ∧ t.if_id.PC = s.PC ∧
      t.nStalls = s.nStalls) ∧
    (∀ n, ∃ t, Pipeline.cycles n s = Except.ok t ∧ t.nStalls = s.nStalls) ∧
    (∀ n debugMode entry,
      Pipeline.after n (Pipeline.fresh true debugMode entry) Pipeline.nStalls = some 0) := by
  refine ⟨?_, fun n => ?_, fun n debugMode entry => ?_⟩
  · obtain ⟨t, ht, _, _, h1, h2, _, _, h3, _⟩ := Pipeline.cycle_p s hp
    exact ⟨t, ht, h2, h1, h3⟩
  · obtain ⟨t, ht, hf, _, _⟩ := Pipeline.cycles_wf n s (Or.inl hp)
    simp only [Pipeline.fixedPart, Prod.mk.injEq] at hf
    exact ⟨t, ht, hf.2.1⟩
  · obtain ⟨t, ht, hf, _, _⟩ :=
      Pipeline.cycles_wf n (Pipeline.fresh true debugMode entry) (Or.inl rfl)
    simp only [Pipeline.fixedPart, Prod.mk.injEq] at hf
    rw [Pipeline.after_eq n _ t _ ht, hf.2.1]
    rfl

theorem c9_decode_never_stalls_witness :
    (Pipeline.fresh true false 4).pipelining = true ∧
    ∀ n debugMode entry,
      Pipeline.after n (Pipeline.fresh true debugMode entry) Pipeline.nStalls = some 0 :=
  ⟨rfl, (c9_decode_never_stalls (Pipeline.fresh true false 4) rfl).2.2⟩

/-- Pipelined steady state: once IF/ID holds the (non-zero) program counter, it
keeps holding it and every cycle issues one instruction. -/
theorem Pipeline.issued_steady (n : Nat) (s : Pipeline) (e : MemAddress) (he : e ≠ 0)
    (hp : s.pipelining = true) (hpc : s.PC = e) (hl : s.if_id.PC = e)
    (hc : s.nInstrIssued < counterSize) :
    ∃ t, Pipeline.cycles n s = Except.ok t ∧ t.pipelining = true ∧ t.PC = e ∧
      t.if_id.PC = e ∧ t.nInstrIssued = (s.nInstrIssued + n) % counterSize ∧
      t.nStalls = s.nStalls := by
  induction n generalizing s with
  | zero => exact ⟨s, rfl, hp, hpc, hl, (Nat.mod_eq_of_lt hc).symm, rfl⟩
  | succ n ih =>
    obtain ⟨s1, h1, hp1, hpc1, hl1, _, _, _, hs1, hi1, _⟩ := Pipeline.cycle_p s hp
    rw [hl, if_neg he] at hi1
    obtain ⟨t, ht, hpt, hpct, hlt, hit, hst⟩ := ih s1 hp1 (hpc1.trans hpc) (hl1.trans hpc)
      (by rw [hi1]; exact Nat.mod_lt _ (by decide))
    refine ⟨t, by simp only [Pipeline.cycles, h1, ht], hpt, hpct, hlt, ?_, hst.trans hs1⟩
    rw [hit, hi1, incr64, Nat.add_mod, Nat.mod_mod, ← Nat.add_mod]
    congr 1
    omega

/-- C10: pipelined, from a fresh pipeline with a non-zero program counter: the
first cycle leaves `nInstrIssued` at 0, and for every `n ≥ 1` the record after
`n` cycles has `nInstrIssued = (n - 1) mod 2^64`, which is `n - 1` as long as
`n` is within the range of the 64-bit counter, cycle `n + 1` increments the
counter by exactly one, and no stall has been counted. -/
theorem c10_issued_excludes_first_cycle (debugMode : Bool) (entry : Nat)
    (h0 : entry % wordSize ≠ 0) (n : Nat) (hn : 1 ≤ n) :
    Pipeline.after 1 (Pipeline.fresh true debugMode entry) Pipeline.nInstrIssued = some 0 ∧
    ∃ t u, Pipeline.cycles n (Pipeline.fresh true debugMode entry) = Except.ok t ∧
      Pipeline.cycle t = Except.ok u ∧
      u.nInstrIssued = (t.nInstrIssued + 1) % counterSize ∧
      t.nInstrIssued = (n - 1) % counterSize ∧
      (n ≤ counterSize → t.nInstrIssued = n - 1) ∧
      t.nStalls = 0 := by
  obtain ⟨s1, h1, hp1, hpc1, hl1, _, _, _, hs1, hi1, _⟩ :=
    Pipeline.cycle_p (Pipeline.fresh true debugMode entry) rfl
  have hi0 : s1.nInstrIssued = 0 := hi1
  have hst0 : s1.nStalls = 0 := hs1
  have hpc0 : s1.PC = entry % wordSize := hpc1
  constructor
  · rw [Pipeline.after_eq 1 _ s1 _ (by simp only [Pipeline.cycles, h1]), hi0]
  · obtain ⟨m, rfl⟩ : ∃ m, n = m + 1 := ⟨n - 1, by omega⟩
    obtain ⟨t, ht, hpt, hpct, hlt, hit, hst⟩ :=
      Pipeline.issued_steady m s1 (entry % wordSize) h0 hp1 hpc0 (hl1.trans rfl)
        (by rw [hi0]; decide)
    obtain ⟨u, hu, _, _, _, _, _, _, _, hiu, _⟩ := Pipeline.cycle_p t hpt
    rw [hlt, if_neg h0] at hiu
    rw [hi0, Nat.zero_add] at hit
    refine ⟨t, u, by simp only [Pipeline.cycles, h1, ht], hu, hiu, hit, fun hle => ?_,
      hst.trans hst0⟩
    rw [hit]
    exact Nat.mod_eq_of_lt (by omega)

theorem c10_issued_excludes_first_cycle_witness :
    4 % wordSize ≠ 0 ∧ 1 ≤ 7 ∧
    Pipeline.after 1 (Pipeline.fresh true false 4) Pipeline.nInstrIssued = some 0 ∧
    ∃ t u, Pipeline.cycles 7 (Pipeline.fresh true false 4) = Except.ok t ∧
      Pipeline.cycle t = Except.ok u ∧
      u.nInstrIssued = (t.nInstrIssued + 1) % counterSize ∧
      t.nInstrIssued = (7 - 1) % counterSize ∧
      (7 ≤ counterSize → t.nInstrIssued = 7 - 1) ∧
      t.nStalls = 0 :=
  ⟨by decide, by decide,
    c10_issued_excludes_first_cycle false 4 (by decide) 7 (by decide)⟩

/-! ## Write-back: the completed count -/

theorem Pipeline.cycles_succ_last (n : Nat) (s : Pipeline) :
    Pipeline.cycles (n + 1) s =
      match Pipeline.cycles n s with
      | Except.ok t => Pipeline.cycle t
      | Except.error f => Except.error f := by
  induction n generalizing s with
  | zero =>
    simp only [Pipeline.cycles]
    cases Pipeline.cycle s <;> rfl
  | succ n ih =>
    rw [Pipeline.cycles]
    cases h : Pipeline.cycle s with
    | error f => simp only [Pipeline.cycles, h]
    | ok s1 =>
      simp only
      rw [ih s1]
      simp only [Pipeline.cycles, h]

/-- Filling of the pipeline from a fresh start: after `n` cycles the first
`n` latches hold the program counter `e`, the others still 0, and the counters
have counted the cycles in which decode and MEM/WB held `e`. -/
theorem Pipeline.fresh_pipelined (debugMode : Bool) (entry : Nat)
    (h0 : entry % wordSize ≠ 0) (n : Nat) :
    ∃ t, Pipeline.cycles n (Pipeline.fresh true debugMode entry) = Except.ok t ∧
      t.pipelining = true ∧ t.PC = entry % wordSize ∧
      t.if_id.PC = (if 1 ≤ n then entry % wordSize else 0) ∧
      t.id_ex.PC = (if 2 ≤ n then entry % wordSize else 0) ∧
      t.ex_m.PC = (if 3 ≤ n then entry % wordSize else 0) ∧
      t.m_wb.PC = (if 4 ≤ n then entry % wordSize else 0) ∧
      t.nInstrIssued = (n - 1) % counterSize ∧
      t.nInstrCompleted = (n - 4) % counterSize := by
  induction n with
  | zero => exact ⟨_, rfl, rfl, rfl, rfl, rfl, rfl, rfl, rfl, rfl⟩
  | succ n ih =>
    obtain ⟨t, ht, hp, hpc, h1, h2, h3, h4, hi, hc⟩ := ih
    obtain ⟨u, hu, hup, hupc, g1, g2, g3, g4, _, gi, gc⟩ := Pipeline.cycle_p t hp
    refine ⟨u, ?_, hup, hupc.trans hpc, ?_, ?_, ?_, ?_, ?_, ?_⟩
    · rw [Pipeline.cycles_succ_last, ht]; exact hu
    · rw [g1, hpc, if_pos (by omega)]
    · rw [g2, h1]; by_cases h : 1 ≤ n <;> simp [h]
    · rw [g3, h2]; by_cases h : 2 ≤ n <;> simp [h]
    · rw [g4, h3]; by_cases h : 3 ≤ n <;> simp [h]
    · rw [gi, h1, hi]
      by_cases h : 1 ≤ n
      · rw [if_pos h, if_neg h0, incr64, Nat.mod_add_mod]
        congr 1; omega
      · have hn : n = 0 := by omega
        subst hn; rfl
    · rw [gc, h4, hc]
      by_cases h : 4 ≤ n
      · rw [if_pos h, if_neg h0, incr64, Nat.mod_add_mod]
        congr 1; omega
      · rw [if_neg h, if_pos rfl]
        congr 1; omega

/-- C11: pipelined, from a fresh pipeline with a non-zero program counter:
after `n` cycles `nInstrCompleted = (n - 4) mod 2^64` with truncated
subtraction, that is `max(0, n - 4)` as long as this is within the range of
the 64-bit counter; each of the first four cycles leaves the counter as it is
(the MEM/WB latch still holds 0), and every later cycle adds exactly one. -/
theorem c11_completed_excludes_empty_latches (debugMode : Bool) (entry : Nat)
    (h0 : entry % wordSize ≠ 0) (n : Nat) :
    ∃ t u, Pipeline.cycles n (Pipeline.fresh true debugMode entry) = Except.ok t ∧
      Pipeline.cycle t = Except.ok u ∧
      t.nInstrCompleted = (n - 4) % counterSize ∧
      (n - 4 < counterSize → t.nInstrCompleted = max 0 (n - 4)) ∧
      (n < 4 → t.m_wb.PC = 0 ∧ t.nInstrCompleted = 0 ∧ u.nInstrCompleted = 0) ∧
      (4 ≤ n → u.nInstrCompleted = (t.nInstrCompleted + 1) % counterSize) := by
  obtain ⟨t, ht, hp, _, _, _, _, h4, _, hc⟩ := Pipeline.fresh_pipelined debugMode entry h0 n
  obtain ⟨u, hu, _, _, _, _, _, _, _, _, gc⟩ := Pipeline.cycle_p t hp
  refine ⟨t, u, ht, hu, hc, fun hlt => ?_, fun hlt => ?_, fun hge => ?_⟩
  · rw [hc, Nat.mod_eq_of_lt hlt]; simp
  · have h40 : t.m_wb.PC = 0 := by rw [h4, if_neg (by omega)]
    have hc0 : t.nInstrCompleted = 0 := by
      rw [hc, show n - 4 = 0 by omega]; rfl
    exact ⟨h40, hc0, by rw [gc, if_pos h40, hc0]⟩
  · rw [gc, h4, if_pos hge, if_neg h0]; rfl

theorem c11_completed_excludes_empty_latches_witness :
    4 % wordSize ≠ 0 ∧
    ∃ t u, Pipeline.cycles 9 (Pipeline.fresh true false 4) = Except.ok t ∧
      Pipeline.cycle t = Except.ok u ∧
      t.nInstrCompleted = (9 - 4) % counterSize ∧
      (9 - 4 < counterSize → t.nInstrCompleted = max 0 (9 - 4)) ∧
      (9 < 4 → t.m_wb.PC = 0 ∧ t.nInstrCompleted = 0 ∧ u.nInstrCompleted = 0) ∧
      (4 ≤ 9 → u.nInstrCompleted = (t.nInstrCompleted + 1) % counterSize) :=
  ⟨by decide, c11_completed_excludes_empty_latches false 4 (by decide) 9⟩

/-! ## The ALU -/

theorem ALU.getResult_state (u : ALU) : u.getResult.2 = u := by
  unfold ALU.getResult
  split <;> rfl

theorem ALU.getResult_value (u : ALU) :
    u.getResult.1 =
      if u.op = ALUOp.NOP then Except.ok 0 else Except.error Fault.IllegalInstruction := by
  unfold ALU.getResult
  split <;> rfl

/-- C12, counterexample: an ALU whose operation has never been set since its
construction does not fail: with operands 7 and 9, `getResult` returns 0. -/
theorem c12_unset_operation_returns_zero :
    ((ALU.new.setA 7).setB 9).getResult.1 = Except.ok 0 ∧
    ALU.new.getResult.1 = Except.ok 0 := by
  constructor <;> rfl

/-- C12, amended: for every pair of operands, `getResult` fails with
`IllegalInstruction` when the operation tag is not a known operation (any tag
other than `NOP`), whatever the ALU went through before; the setters only
store their argument; an ALU whose operation has never been set holds `NOP`,
and its `getResult` returns 0. -/
theorem c12_unknown_operation_fails (u : ALU) (a b : RegValue) (op : ALUOp)
    (hop : op ≠ ALUOp.NOP) :
    (((u.setA a).setB b).setOp op).getResult.1 = Except.error Fault.IllegalInstruction ∧
    (((u.setA a).setB b).setOp op).A = a ∧ (((u.setA a).setB b).setOp op).B = b ∧
    (((u.setA a).setB b).setOp op).op = op ∧
    ((ALU.new.setA a).setB b).op = ALUOp.NOP ∧
    ((ALU.new.setA a).setB b).getResult.1 = Except.ok 0 := by
  refine ⟨?_, rfl, rfl, rfl, rfl, rfl⟩
  rw [ALU.getResult_value]
  exact if_neg hop

theorem c12_unknown_operation_fails_witness :
    ({ tag := 1 } : ALUOp) ≠ ALUOp.NOP ∧
    (((ALU.new.setA 7).setB 9).setOp { tag := 1 }).getResult.1 =
      Except.error Fault.IllegalInstruction :=
  ⟨by decide, (c12_unknown_operation_fails ALU.new 7 9 { tag := 1 } (by decide)).1⟩

/-- The three members after the three setters, in whatever ALU they are called. -/
theorem ALU.set_all (u : ALU) (a b : RegValue) (op : ALUOp) :
    ((u.setA a).setB b).setOp op = { A := a, B := b, op := op } := rfl

/-- C13: `getResult` leaves the operands and the operation as they are; its
outcome is the same for two ALUs that hold the same operands and operation,
in particular after any two histories of calls followed by the same three
settings; and a second `getResult` gives the outcome of the first. -/
theorem c13_getResult_pure (u v : ALU) (h1 h2 : List ALUCall) (a b : RegValue) (op : ALUOp) :
    u.getResult.2 = u ∧
    (u.A = v.A → u.B = v.B → u.op = v.op → u.getResult.1 = v.getResult.1) ∧
    ((((h1.foldl ALUCall.apply u).setA a).setB b).setOp op).getResult.1 =
      ((((h2.foldl ALUCall.apply v).setA a).setB b).setOp op).getResult.1 ∧
    u.getResult.2.getResult.1 = u.getResult.1 := by
  refine ⟨ALU.getResult_state u, fun _ _ ho => ?_, ?_, ?_⟩
  · rw [ALU.getResult_value, ALU.getResult_value, ho]
  · rw [ALU.set_all, ALU.set_all]
  · rw [ALU.getResult_state]

theorem c13_getResult_pure_witness :
    ((ALU.new.setA 3).setB 5).getResult.1 =
      ((((ALU.new.setOp { tag := 7 }).setA 3).setB 5).setOp ALUOp.NOP).getResult.1 :=
  (c13_getResult_pure ((ALU.new.setA 3).setB 5)
    ((((ALU.new.setOp { tag := 7 }).setA 3).setB 5).setOp ALUOp.NOP) [] [] 0 0 ALUOp.NOP).2.1
    rfl rfl rfl

/-- C14, counterexample: no operation tag makes `getResult` return the sum
of the operands 1 and 2. -/
theorem c14_no_addition :
    ¬ ∃ op : ALUOp,
      (((ALU.new.setA 1).setB 2).setOp op).getResult.1 = Except.ok ((1 + 2) % wordSize) := by
  rintro ⟨op, h⟩
  rw [ALU.getResult_value] at h
  split at h
  · injection h with h
    exact absurd h (by decide)
  · cases h

/-- C14, amended: the ALU has no addition: for all operands `a`, `b` and every
operation tag, `getResult` with operands `(a, b)` equals `getResult` with
operands `(b, a)`, and it is 0 for `NOP`, the only operation, and the failure
`IllegalInstruction` for every other tag. -/
theorem c14_result_ignores_operands (u : ALU) (a b : RegValue) (op : ALUOp) :
    (((u.setA a).setB b).setOp op).getResult.1 =
      (((u.setA b).setB a).setOp op).getResult.1 ∧
    (((u.setA a).setB b).setOp op).getResult.1 =
      (if op = ALUOp.NOP then Except.ok 0 else Except.error Fault.IllegalInstruction) := by
  constructor
  · rw [ALU.getResult_value, ALU.getResult_value]; rfl
  · rw [ALU.getResult_value]; rfl

/-! ## The memory adapters -/

/-- C15, counterexample: store the value 5 with size 4 at address 0x1000
(write-enable, clock pulse), then read with the same address and size and
without sign extension: `getDataOut` returns 0, while the value stored,
truncated to 4 bytes and zero-extended, is 5; the pulse left the bus as it
was. -/
theorem c15_load_returns_zero :
    DataMemory.storeThenLoad (countingBus 1000 0) 0 {} 0x1000 4 5 false = Except.ok 0 ∧
    specLoadValue 4 false 5 = 5 ∧
    DataMemory.clockPulse (countingBus 1000 0) 0 (({} : DataMemory).storeSetup 0x1000 4 5) =
      (none, 0) := by
  refine ⟨rfl, by decide, rfl⟩

/-- C15, amended: for every bus, address, access size, value and sign-extension
mode, the clock pulse of the data-memory adapter writes nothing to the bus and
raises nothing, and `getDataOut` returns 0 whatever was configured or stored
before; so a store followed by a load returns the stored value, truncated and
extended, only when that is 0. -/
theorem c15_data_memory_inert {β : Type} (M : BusModel β) (bus : β) (dm : DataMemory)
    (addr : MemAddress) (size : Nat) (value : RegValue) (signExtend : Bool) :
    DataMemory.clockPulse M bus (dm.storeSetup addr size value) = (none, bus) ∧
    DataMemory.getDataOut M bus dm signExtend = Except.ok 0 ∧
    DataMemory.storeThenLoad M bus dm addr size value signExtend = Except.ok 0 ∧
    (DataMemory.storeThenLoad M bus dm addr size value signExtend =
        Except.ok (specLoadValue size signExtend value) ↔
      specLoadValue size signExtend value = 0) := by
  have h : DataMemory.storeThenLoad M bus dm addr size value signExtend = Except.ok 0 := rfl
  refine ⟨rfl, rfl, h, ?_⟩
  rw [h]
  constructor
  · intro h1
    injection h1 with h1
    exact h1.symm
  · intro h1
    rw [h1]

theorem InstructionMemory.setSize_fail (im : InstructionMemory) (size : Nat)
    (h : ¬ (size = 2 ∨ size = 4)) :
    im.setSize size = (some Fault.IllegalAccess, im) := by
  unfold InstructionMemory.setSize
  rw [if_pos]
  omega

theorem InstructionMemory.setSize_ok (im : InstructionMemory) (size : Nat)
    (h : size = 2 ∨ size = 4) :
    im.setSize size = (none, { im with size := size }) := by
  unfold InstructionMemory.setSize
  rw [if_neg]
  omega

/-- As long as no `setSize` has succeeded, the size is the 0 of the constructor. -/
theorem InstructionMemory.size_never_set (calls : List IMCall)
    (h : ∀ c ∈ calls, ¬ c.setsSize) (im : InstructionMemory) :
    (calls.foldl IMCall.apply im).size = im.size := by
  induction calls generalizing im with
  | nil => rfl
  | cons c rest ih =>
    rw [List.foldl_cons, ih (fun c hc => h c (List.mem_cons_of_mem _ hc))]
    have hc := h c (List.mem_cons_self _ _)
    cases c with
    | setAddress a => rfl
    | setSize size =>
      have hs : ¬ (size = 2 ∨ size = 4) := by
        intro hs
        apply hc
        show (InstructionMemory.new.setSize size).1 = none
        rw [InstructionMemory.setSize_ok _ _ hs]
      show (im.setSize size).2.size = im.size
      rw [InstructionMemory.setSize_fail _ _ hs]

/-- C16: `setSize s` succeeds exactly when `s` is 2 or 4 and then stores `s`;
for every other `s` it fails with `IllegalAccess` and leaves the adapter (size
and address) as it was.  `getValue` fails with `IllegalAccess` on an adapter
on which no `setSize` has succeeded since its construction, and otherwise it
is the half-word read (size 2) or the word read (size 4) of the bus at the
stored address. -/
theorem c16_instruction_memory_sizes {β : Type} (M : BusModel β) (bus : β)
    (im : InstructionMemory) (s : Nat) (calls : List IMCall)
    (hcalls : ∀ c ∈ calls, ¬ c.setsSize) :
    ((im.setSize s).1 = none ↔ (s = 2 ∨ s = 4)) ∧
    ((s = 2 ∨ s = 4) → (im.setSize s).2.size = s ∧ (im.setSize s).2.addr = im.addr) ∧
    (¬ (s = 2 ∨ s = 4) → im.setSize s = (some Fault.IllegalAccess, im)) ∧
    InstructionMemory.getValue M bus (calls.foldl IMCall.apply InstructionMemory.new) =
      Except.error Fault.IllegalAccess ∧
    (im.size = 2 → InstructionMemory.getValue M bus im = M.readHalfWord bus im.addr) ∧
    (im.size = 4 → InstructionMemory.getValue M bus im = M.readWord bus im.addr) ∧
    (im.size ≠ 2 → im.size ≠ 4 →
      InstructionMemory.getValue M bus im = Except.error Fault.IllegalAccess) := by
  refine ⟨⟨fun h => ?_, fun h => ?_⟩, fun h => ?_, InstructionMemory.setSize_fail im s, ?_,
    fun h => ?_, fun h => ?_, fun h2 h4 => ?_⟩
  · by_contra hn
    rw [InstructionMemory.setSize_fail im s hn] at h
    cases h
  · rw [InstructionMemory.setSize_ok im s h]
  · rw [InstructionMemory.setSize_ok im s h]
    exact ⟨rfl, rfl⟩
  · have hz := InstructionMemory.size_never_set calls hcalls InstructionMemory.new
    unfold InstructionMemory.getValue
    rw [hz]
    rfl
  · unfold InstructionMemory.getValue
    rw [h]
  · unfold InstructionMemory.getValue
    rw [h]
  · unfold InstructionMemory.getValue
    split
    · exact absurd ‹im.size = 2› h2
    · exact absurd ‹im.size = 4› h4
    · rfl

theorem c16_instruction_memory_sizes_witness :
    InstructionMemory.getValue (countingBus 1000 TestEndMarker) 0
        ([IMCall.setAddress 8, IMCall.setSize 3, IMCall.setSize 0].foldl IMCall.apply
          InstructionMemory.new) = Except.error Fault.IllegalAccess :=
  (c16_instruction_memory_sizes (countingBus 1000 TestEndMarker) 0 InstructionMemory.new 3
    [IMCall.setAddress 8, IMCall.setSize 3, IMCall.setSize 0]
    (by
      intro c hc
      simp only [List.mem_cons, List.mem_singleton, List.not_mem_nil, or_false] at hc
      rcases hc with rfl | rfl | rfl
      · exact fun h => h
      · exact fun h => by cases h
      · exact fun h => by cases h)).2.2.2.1

/-! ## The instruction decoder -/

/-- C17, counterexample: the word 0x221800 encodes destination register 1 and
source registers 2 and 3, but the three accessors return 0. -/
theorem c17_fields_not_decoded :
    specFieldD 0x221800 = 1 ∧ specFieldA 0x221800 = 2 ∧ specFieldB 0x221800 = 3 ∧
    (({} : InstructionDecoder).setInstructionWord 0x221800).getD = 0 ∧
    (({} : InstructionDecoder).setInstructionWord 0x221800).getA = 0 ∧
    (({} : InstructionDecoder).setInstructionWord 0x221800).getB = 0 := by
  decide

/-- C17, amended: for every instruction word `w`, after `setInstructionWord w`
the accessors `getD`, `getA` and `getB` return 0 (which is less than 32): they
are the same for all words; and `getInstructionWord` returns `w`, before and
after the accessors are used. -/
theorem c17_accessors_constant (d : InstructionDecoder) (w w2 : Nat) :
    (d.setInstructionWord w).getD = 0 ∧ (d.setInstructionWord w).getA = 0 ∧
    (d.setInstructionWord w).getB = 0 ∧
    (d.setInstructionWord w).getD = (d.setInstructionWord w2).getD ∧
    (d.setInstructionWord w).getA = (d.setInstructionWord w2).getA ∧
    (d.setInstructionWord w).getB = (d.setInstructionWord w2).getB ∧
    (d.setInstructionWord w).getD < NumRegs ∧
    (d.setInstructionWord w).getInstructionWord = w :=
  ⟨rfl, rfl, rfl, rfl, rfl, rfl, show (0 : Nat) < 32 by decide, rfl⟩

/-! ## The bus clock -/

/-- A pass of the loop body that runs to its end has incremented the cycle
count and pulsed the bus if and only if the cycle count was a multiple of 5. -/
theorem Processor.tryCycle_done {β : Type} (M : BusModel β) (p p1 : Processor β)
    (h : Processor.tryCycle M p = CycleResult.done p1) :
    p1.nCycles = incr64 p.nCycles ∧
      p1.bus = (if p.nCycles % 5 = 0 then M.pulse p.bus else p.bus) := by
  unfold Processor.tryCycle at h
  have hb : (if p.nCycles % 5 = 0 then M.pulse p.bus else p.bus) =
      (if p.nCycles % 5 = 0 then M.clockPulse p.bus else (none, p.bus)).2 := by
    unfold BusModel.pulse
    split <;> rfl
  rw [hb]
  generalize (if p.nCycles % 5 = 0 then M.clockPulse p.bus else (none, p.bus)) = r at h
  rcases r with ⟨_ | g, b⟩
  · dsimp only at h
    cases h1 : Pipeline.propagate p.pipeline with
    | error e => rw [h1] at h; cases h
    | ok s1 =>
      rw [h1] at h
      dsimp only at h
      cases h2 : Pipeline.clockPulse s1 with
      | error e => rw [h2] at h; cases h
      | ok s2 =>
        rw [h2] at h
        injection h with h
        rw [← h]
        exact ⟨rfl, rfl⟩
  · cases h

/-- Completed cycles starting at cycle count `c`: the bus gets one pulse for
every multiple of 5 among the cycle counts `c, …, c + k - 1`. -/
theorem Processor.cyclesDone_bus {β : Type} (M : BusModel β) (k : Nat) (p q : Processor β)
    (hk : p.nCycles + k < counterSize) (h : Processor.cyclesDone M k p = some q) :
    q.nCycles = p.nCycles + k ∧
      q.bus = M.pulse^[(p.nCycles + k + 4) / 5 - (p.nCycles + 4) / 5] p.bus := by
  induction k generalizing p with
  | zero =>
    simp only [Processor.cyclesDone, Option.some.injEq] at h
    subst h
    simp
  | succ k ih =>
    unfold Processor.cyclesDone at h
    cases hh : M.shouldHalt p.bus with
    | true => simp [hh] at h
    | false =>
      simp only [hh, Bool.false_eq_true, if_false] at h
      cases hc : Processor.tryCycle M p with
      | raised f r => simp [hc] at h
      | done p1 =>
        simp only [hc] at h
        obtain ⟨hn, hb⟩ := Processor.tryCycle_done M p p1 hc
        have hn1 : p1.nCycles = p.nCycles + 1 := by
          rw [hn, incr64, Nat.mod_eq_of_lt (by omega)]
        obtain ⟨g1, g2⟩ := ih p1 (by omega) h
        refine ⟨by omega, ?_⟩
        rw [g2, hb, hn1]
        by_cases h5 : p.nCycles % 5 = 0
        · rw [if_pos h5, ← Function.iterate_succ_apply]
          congr 1
          omega
        · rw [if_neg h5]
          congr 1
          omega

/-- C18: the bus is pulsed at the start of exactly those cycles whose cycle
count so far is a multiple of 5: a cycle that runs to its end leaves the bus
pulsed once if the count was a multiple of 5 and untouched otherwise; so after
`n` completed cycles of a new processor (`n` within the range of the 64-bit
cycle counter) the cycle count is `n` and the bus has had exactly
`ceil(n / 5)` pulses. -/
theorem c18_bus_pulsed_every_fifth_cycle {β : Type} (M : BusModel β) (bus : β)
    (entry : Nat) (pipelining debugMode : Bool) (n : Nat) (hn : n < counterSize)
    (q : Processor β)
    (h : Processor.cyclesDone M n (Processor.new bus entry pipelining debugMode) = some q) :
    q.nCycles = n ∧ q.bus = M.pulse^[(n + 4) / 5] bus ∧
    ∀ q1, Processor.tryCycle M q = CycleResult.done q1 →
      q1.bus = (if n % 5 = 0 then M.pulse q.bus else q.bus) := by
  have hp : (Processor.new bus entry pipelining debugMode).nCycles = 0 := rfl
  obtain ⟨h1, h2⟩ := Processor.cyclesDone_bus M n _ q (by rw [hp]; omega) h
  rw [hp, Nat.zero_add] at h1
  refine ⟨h1, ?_, fun q1 hq => ?_⟩
  · rw [h2, hp, Nat.zero_add]
    rfl
  · rw [(Processor.tryCycle_done M q q1 hq).2, h1]

theorem c18_bus_pulsed_every_fifth_cycle_witness :
    7 < counterSize ∧
    ∃ q, Processor.cyclesDone (countingBus 1000 0) 7 (Processor.new 0 4 true false) = some q ∧
      q.nCycles = 7 ∧ q.bus = (countingBus 1000 0).pulse^[(7 + 4) / 5] 0 :=
  have h : (Processor.cyclesDone (countingBus 1000 0) 7
      (Processor.new 0 4 true false)).isSome = true := by decide
  have r := c18_bus_pulsed_every_fifth_cycle (countingBus 1000 0) 0 4 true false 7
    (by decide) _ (Option.some_get h).symm
  ⟨by decide, _, (Option.some_get h).symm, r.1, r.2.1⟩

/-! ## Side effects of the propagate phase -/

/-- The counters across one stage's `propagate`: only write-back counts. -/
theorem StageId.propagated_counters (st : StageId) (s : Pipeline) :
    (st.propagated s).nInstrIssued = s.nInstrIssued ∧
    (st.propagated s).m_wb = s.m_wb ∧
    (st.propagated s).nInstrCompleted =
      (if st = StageId.WB ∧ (s.pipelining = false ∨ s.m_wb.PC ≠ 0) then
        incr64 s.nInstrCompleted else s.nInstrCompleted) := by
  cases st <;>
    simp only [StageId.propagated, InstructionDecodeStage.propagate, ExecuteStage.propagate,
      MemoryStage.propagate, WriteBackStage.propagate]
  · simp
  · split <;> simp
  · simp
  · simp
  · cases hp : s.pipelining <;> by_cases hm : s.m_wb.PC = 0 <;> simp [hp, hm]

theorem foldl_propagated_counters (s : Pipeline) :
    (stages.foldl (fun acc st => st.propagated acc) s).nInstrIssued = s.nInstrIssued ∧
    (stages.foldl (fun acc st => st.propagated acc) s).nInstrCompleted =
      (if s.pipelining = false ∨ s.m_wb.PC ≠ 0 then
        incr64 s.nInstrCompleted else s.nInstrCompleted) := by
  simp only [stages, List.foldl]
  have e1 := StageId.propagated_counters StageId.IF s
  have e2 := StageId.propagated_counters StageId.ID (StageId.IF.propagated s)
  have e3 := StageId.propagated_counters StageId.EX
    (StageId.ID.propagated (StageId.IF.propagated s))
  have e4 := StageId.propagated_counters StageId.MEM
    (StageId.EX.propagated (StageId.ID.propagated (StageId.IF.propagated s)))
  have e5 := StageId.propagated_counters StageId.WB (StageId.MEM.propagated
    (StageId.EX.propagated (StageId.ID.propagated (StageId.IF.propagated s))))
  have f1 := Pipeline.fixedPart_pipelining (StageId.propagated_fixed StageId.IF s).1
  have f2 := Pipeline.fixedPart_pipelining
    (StageId.propagated_fixed StageId.ID (StageId.IF.propagated s)).1
  have f3 := Pipeline.fixedPart_pipelining (StageId.propagated_fixed StageId.EX
    (StageId.ID.propagated (StageId.IF.propagated s))).1
  have f4 := Pipeline.fixedPart_pipelining (StageId.propagated_fixed StageId.MEM
    (StageId.EX.propagated (StageId.ID.propagated (StageId.IF.propagated s)))).1
  simp only [reduceCtorEq, false_and, if_false, true_and] at e1 e2 e3 e4 e5
  refine ⟨by rw [e5.1, e4.1, e3.1, e2.1, e1.1], ?_⟩
  rw [e5.2.2, e4.2.2, e3.2.2, e2.2.2, e1.2.2, e4.2.1, e3.2.1, e2.2.1, e1.2.1, f4, f3, f2, f1]

/-- C19, counterexample: with write-back the active stage in non-pipelined
mode, and in pipelined mode with an instruction in MEM/WB, `Pipeline.propagate`
raises nothing and increments `nInstrCompleted` from 2 to 3. -/
theorem c19_propagate_counts_completed :
    sampleRecord.nInstrCompleted = 2 ∧
    viewOk (Pipeline.propagate sampleRecord) Pipeline.nInstrCompleted = some 3 ∧
    samplePipelined.nInstrCompleted = 2 ∧
    viewOk (Pipeline.propagate samplePipelined) Pipeline.nInstrCompleted = some 3 := by
  decide

/-- C19, amended: on every well-formed record and in both modes,
`Pipeline.propagate` raises no fault and leaves the latches, the program
counter, the register file, the condition flag and the counters of issued
instructions and of stalls as they were; the counter of completed instructions
is incremented by write-back's `propagate`: in pipelined mode when MEM/WB holds
a non-zero program counter, in non-pipelined mode when write-back is the
active stage; otherwise it is unchanged too. -/
theorem c19_propagate_side_effects (s : Pipeline) (hw : s.WF) :
    ∃ s1, Pipeline.propagate s = Except.ok s1 ∧
      s1.latches = s.latches ∧ s1.PC = s.PC ∧ s1.regfile = s.regfile ∧ s1.flag = s.flag ∧
      s1.nInstrIssued = s.nInstrIssued ∧ s1.nStalls = s.nStalls ∧
      s1.nInstrCompleted =
        (if (s.pipelining = true ∧ s.m_wb.PC ≠ 0) ∨
            (s.pipelining = false ∧ s.currentStage = 4) then
          incr64 s.nInstrCompleted else s.nInstrCompleted) := by
  cases hp : s.pipelining with
  | true =>
    refine ⟨_, Pipeline.propagate_p s hp, foldl_propagated_latches stages s, ?_⟩
    obtain ⟨hf, hr, _⟩ := foldl_propagated_fixed stages s
    obtain ⟨hi, hc⟩ := foldl_propagated_counters s
    simp only [Pipeline.fixedPart, Prod.mk.injEq] at hf
    refine ⟨hf.2.2.2.1, hr, hf.2.2.2.2.1, hi, hf.2.1, ?_⟩
    rw [hc, hp]
    simp
  | false =>
    have hlt : s.currentStage < stages.length := by
      rcases hw with h | h
      · rw [hp] at h; cases h
      · exact h
    obtain ⟨st, hst⟩ := stages_lookup hlt
    refine ⟨_, Pipeline.propagate_np s hp st hst, StageId.propagated_latches st s, ?_⟩
    obtain ⟨hf, hr, _⟩ := StageId.propagated_fixed st s
    obtain ⟨hi, _, hc⟩ := StageId.propagated_counters st s
    simp only [Pipeline.fixedPart, Prod.mk.injEq] at hf
    refine ⟨hf.2.2.2.1, hr, hf.2.2.2.2.1, hi, hf.2.1, ?_⟩
    rw [hc, hp]
    have h4 : st = StageId.WB ↔ s.currentStage = 4 := by
      have hl : stages.length = 5 := rfl
      rw [hl] at hlt
      interval_cases hcs : s.currentStage <;>
        simp [stages] at hst <;> subst hst <;> simp
    simp [h4]

theorem c19_propagate_side_effects_witness :
    sampleRecord.WF ∧
    ∃ s1, Pipeline.propagate sampleRecord = Except.ok s1 ∧
      s1.latches = sampleRecord.latches ∧ s1.PC = sampleRecord.PC ∧
      s1.regfile = sampleRecord.regfile ∧ s1.flag = sampleRecord.flag ∧
      s1.nInstrIssued = sampleRecord.nInstrIssued ∧ s1.nStalls = sampleRecord.nStalls ∧
      s1.nInstrCompleted =
        (if (sampleRecord.pipelining = true ∧ sampleRecord.m_wb.PC ≠ 0) ∨
            (sampleRecord.pipelining = false ∧ sampleRecord.currentStage = 4) then
          incr64 sampleRecord.nInstrCompleted else sampleRecord.nInstrCompleted) :=
  ⟨Or.inr (by decide), c19_propagate_side_effects sampleRecord (Or.inr (by decide))⟩

/-! ## The latches across a pipelined cycle -/

/-- C20: in pipelined mode, after one full cycle the IF/ID latch holds the
program counter, ID/EX holds what IF/ID held before the cycle, EX/MEM what
ID/EX held and MEM/WB what EX/MEM held; so a latch has its own value of before
the cycle only if the value upstream was equal to it. -/
theorem c20_latches_shift (s : Pipeline) (hp : s.pipelining = true) :
    ∃ t, Pipeline.cycle s = Except.ok t ∧
      t.if_id.PC = s.PC ∧ t.id_ex.PC = s.if_id.PC ∧ t.ex_m.PC = s.id_ex.PC ∧
      t.m_wb.PC = s.ex_m.PC ∧
      (t.if_id.PC = s.if_id.PC → s.PC = s.if_id.PC) ∧
      (t.id_ex.PC = s.id_ex.PC → s.if_id.PC = s.id_ex.PC) ∧
      (t.ex_m.PC = s.ex_m.PC → s.id_ex.PC = s.ex_m.PC) ∧
      (t.m_wb.PC = s.m_wb.PC → s.ex_m.PC = s.m_wb.PC) := by
  obtain ⟨t, ht, _, _, h1, h2, h3, h4, _⟩ := Pipeline.cycle_p s hp
  exact ⟨t, ht, h1, h2, h3, h4, fun h => h1.symm.trans h, fun h => h2.symm.trans h,
    fun h => h3.symm.trans h, fun h => h4.symm.trans h⟩

theorem c20_latches_shift_witness :
    samplePipelined.pipelining = true ∧
    ∃ t, Pipeline.cycle samplePipelined = Except.ok t ∧
      t.if_id.PC = 20 ∧ t.id_ex.PC = 4 ∧ t.ex_m.PC = 8 ∧ t.m_wb.PC = 12 :=
  match c20_latches_shift samplePipelined rfl with
  | ⟨t, ht, h1, h2, h3, h4, _⟩ => ⟨rfl, t, ht, h1, h2, h3, h4⟩

/-! ## The counters in the two modes -/

/-- The counters across one stage's `clockPulse`: only decode counts. -/
theorem StageId.pulsed_counters (st : StageId) (s : Pipeline) :
    (st.pulsed s).nInstrCompleted = s.nInstrCompleted ∧
    (st.pulsed s).nInstrIssued =
      (if st = StageId.ID ∧ (s.pipelining = false ∨ s.idPC ≠ 0) then
        incr64 s.nInstrIssued else s.nInstrIssued) := by
  cases st <;>
    simp only [StageId.pulsed, InstructionFetchStage.clockPulse,
      InstructionDecodeStage.clockPulse, ExecuteStage.clockPulse, MemoryStage.clockPulse,
      WriteBackStage.clockPulse]
  · simp
  · cases hp : s.pipelining <;> by_cases hm : s.idPC = 0 <;> simp [hp, hm]
  · simp
  · simp
  · simp

/-- One cycle in non-pipelined mode: the index advances, decode (index 1)
counts an issued instruction and write-back (index 4) a completed one. -/
theorem Pipeline.cycle_np_counters (s : Pipeline) (h : s.pipelining = false)
    (hcs : s.currentStage < 5) :
    ∃ t, Pipeline.cycle s = Except.ok t ∧ t.pipelining = false ∧
      t.currentStage = (s.currentStage + 1) % 5 ∧
      t.nInstrIssued =
        (if s.currentStage = 1 then incr64 s.nInstrIssued else s.nInstrIssued) ∧
      t.nInstrCompleted =
        (if s.currentStage = 4 then incr64 s.nInstrCompleted else s.nInstrCompleted) := by
  obtain ⟨st, hst⟩ := stages_lookup (i := s.currentStage) hcs
  have hc := Pipeline.cycle_np s h st hst
  have hp1 := Pipeline.fixedPart_pipelining (StageId.propagated_fixed st s).1
  have hp2 := Pipeline.fixedPart_pipelining (StageId.pulsed_fixed st (st.propagated s)).1
  obtain ⟨a1, _, a3⟩ := StageId.propagated_counters st s
  obtain ⟨b1, b2⟩ := StageId.pulsed_counters st (st.propagated s)
  refine ⟨_, hc, (hp2.trans hp1).trans h, rfl, ?_, ?_⟩
  · show (st.pulsed (st.propagated s)).nInstrIssued = _
    rw [b2, a1, hp1, h]
    interval_cases hi : s.currentStage <;>
      simp only [stages, List.getElem?_cons_zero, List.getElem?_cons_succ,
        Option.some.injEq] at hst <;>
      subst hst <;> simp
  · show (st.pulsed (st.propagated s)).nInstrCompleted = _
    rw [b1, a3, h]
    interval_cases hi : s.currentStage <;>
      simp only [stages, List.getElem?_cons_zero, List.getElem?_cons_succ,
        Option.some.injEq] at hst <;>
      subst hst <;> simp

/-- Non-pipelined, from a fresh pipeline: after `n` cycles the index is
`n mod 5`, decode has run `(n + 3) / 5` times and write-back `n / 5` times. -/
theorem Pipeline.fresh_nonpipelined (debugMode : Bool) (entry : Nat) (n : Nat) :
    ∃ t, Pipeline.cycles n (Pipeline.fresh false debugMode entry) = Except.ok t ∧
      t.pipelining = false ∧ t.currentStage = n % 5 ∧
      t.nInstrIssued = ((n + 3) / 5) % counterSize ∧
      t.nInstrCompleted = (n / 5) % counterSize := by
  induction n with
  | zero => exact ⟨_, rfl, rfl, rfl, rfl, rfl⟩
  | succ n ih =>
    obtain ⟨t, ht, hp, hcs, hi, hc⟩ := ih
    obtain ⟨u, hu, hup, hucs, hui, huc⟩ :=
      Pipeline.cycle_np_counters t hp (by rw [hcs]; exact Nat.mod_lt _ (by decide))
    refine ⟨u, ?_, hup, ?_, ?_, ?_⟩
    · rw [Pipeline.cycles_succ_last, ht]; exact hu
    · rw [hucs, hcs]; omega
    · rw [hui, hcs, hi]
      by_cases h1 : n % 5 = 1
      · rw [if_pos h1, incr64, Nat.mod_add_mod]
        congr 1; omega
      · rw [if_neg h1]
        congr 1; omega
    · rw [huc, hcs, hc]
      by_cases h4 : n % 5 = 4
      · rw [if_pos h4, incr64, Nat.mod_add_mod]
        congr 1; omega
      · rw [if_neg h4]
        congr 1; omega

/-- Pipelined with the program counter at 0: the latches stay 0 and neither
counter moves. -/
theorem Pipeline.pipelined_zero (n : Nat) (s : Pipeline) (hp : s.pipelining = true)
    (hpc : s.PC = 0) (h1 : s.if_id.PC = 0) (h2 : s.id_ex.PC = 0) (h3 : s.ex_m.PC = 0)
    (h4 : s.m_wb.PC = 0) :
    ∃ t, Pipeline.cycles n s = Except.ok t ∧ t.nInstrIssued = s.nInstrIssued ∧
      t.nInstrCompleted = s.nInstrCompleted := by
  induction n generalizing s with
  | zero => exact ⟨s, rfl, rfl, rfl⟩
  | succ n ih =>
    obtain ⟨u, hu, hup, hupc, g1, g2, g3, g4, _, gi, gc⟩ := Pipeline.cycle_p s hp
    rw [h1, if_pos rfl] at gi
    rw [h4, if_pos rfl] at gc
    obtain ⟨t, ht, hti, htc⟩ := ih u hup (hupc.trans hpc) (g1.trans hpc) (g2.trans h1)
      (g3.trans h2) (g4.trans h3)
    exact ⟨t, by simp only [Pipeline.cycles, hu, ht], hti.trans gi, htc.trans gc⟩

theorem counterSize_eq : counterSize = 18446744073709551616 := by
  unfold counterSize
  norm_num

/-- C21: from a fresh pipeline, in either mode, after `n` whole cycles (`n`
within the range of the 64-bit counters) `nInstrCompleted ≤ nInstrIssued`; in
non-pipelined mode moreover `nInstrIssued ≤ nInstrCompleted + 1`, with
`nInstrIssued = (n + 3) / 5` and `nInstrCompleted = n / 5`. -/
theorem c21_completed_le_issued (pipelining debugMode : Bool) (entry n : Nat)
    (hn : n ≤ counterSize) :
    ∃ t, Pipeline.cycles n (Pipeline.fresh pipelining debugMode entry) = Except.ok t ∧
      t.nInstrCompleted ≤ t.nInstrIssued ∧
      (pipelining = false →
        t.nInstrIssued ≤ t.nInstrCompleted + 1 ∧ t.nInstrIssued = (n + 3) / 5 ∧
        t.nInstrCompleted = n / 5) := by
  have hM := counterSize_eq
  cases pipelining with
  | false =>
    obtain ⟨t, ht, _, _, hi, hc⟩ := Pipeline.fresh_nonpipelined debugMode entry n
    rw [Nat.mod_eq_of_lt (by omega)] at hi hc
    exact ⟨t, ht, by omega, fun _ => ⟨by omega, hi, hc⟩⟩
  | true =>
    by_cases h0 : entry % wordSize = 0
    · obtain ⟨t, ht, hi, hc⟩ := Pipeline.pipelined_zero n (Pipeline.fresh true debugMode entry)
        rfl h0 rfl rfl rfl rfl
      refine ⟨t, ht, ?_, fun h => by cases h⟩
      rw [hi, hc]
      exact Nat.le_refl _
    · obtain ⟨t, ht, _, _, _, _, _, _, hi, hc⟩ :=
        Pipeline.fresh_pipelined debugMode entry h0 n
      rw [Nat.mod_eq_of_lt (by omega)] at hi hc
      exact ⟨t, ht, by omega, fun h => by cases h⟩

theorem c21_completed_le_issued_witness :
    12 ≤ counterSize ∧
    (∃ t, Pipeline.cycles 12 (Pipeline.fresh false false 4) = Except.ok t ∧
      t.nInstrCompleted ≤ t.nInstrIssued ∧
      (false = false →
        t.nInstrIssued ≤ t.nInstrCompleted + 1 ∧ t.nInstrIssued = (12 + 3) / 5 ∧
        t.nInstrCompleted = 12 / 5)) ∧
    (∃ t, Pipeline.cycles 12 (Pipeline.fresh true false 4) = Except.ok t ∧
      t.nInstrCompleted ≤ t.nInstrIssued ∧
      (true = false →
        t.nInstrIssued ≤ t.nInstrCompleted + 1 ∧ t.nInstrIssued = (12 + 3) / 5 ∧
        t.nInstrCompleted = 12 / 5)) :=
  ⟨by decide, c21_completed_le_issued false false 4 12 (by decide),
    c21_completed_le_issued true false 4 12 (by decide)⟩

/-! ## The stage index and the bus clock in non-pipelined mode -/

theorem stages_index (i : Nat) (h : i < 5) :
    (stages[i]? = some StageId.IF ↔ i = 0) ∧ (stages[i]? = some StageId.MEM ↔ i = 3) := by
  interval_cases i <;> simp [stages]

/-- The pipeline after a pass of the loop body that ran to its end is the
pipeline after one cycle. -/
theorem Processor.tryCycle_done_pipeline {β : Type} (M : BusModel β) (p p1 : Processor β)
    (hw : p.pipeline.WF) (h : Processor.tryCycle M p = CycleResult.done p1) :
    Pipeline.cycle p.pipeline = Except.ok p1.pipeline := by
  obtain ⟨t, hc, _, _, _, he⟩ := Processor.tryCycle_wf M p hw
  rw [he] at h
  generalize (if p.nCycles % 5 = 0 then M.clockPulse p.bus else (none, p.bus)) = r at h
  rcases r with ⟨_ | f, b⟩
  · dsimp only at h
    injection h with h
    rw [← h]
    exact hc
  · cases h

/-- In non-pipelined mode the stage index and the cycle count advance together. -/
theorem Processor.cyclesDone_np_index {β : Type} (M : BusModel β) (k : Nat)
    (p q : Processor β) (hp : p.pipeline.pipelining = false)
    (hi : p.pipeline.currentStage = p.nCycles % 5) (hk : p.nCycles + k < counterSize)
    (h : Processor.cyclesDone M k p = some q) :
    q.pipeline.pipelining = false ∧ q.pipeline.currentStage = q.nCycles % 5 ∧
      q.nCycles = p.nCycles + k := by
  induction k generalizing p with
  | zero =>
    simp only [Processor.cyclesDone, Option.some.injEq] at h
    subst h
    exact ⟨hp, hi, rfl⟩
  | succ k ih =>
    unfold Processor.cyclesDone at h
    cases hh : M.shouldHalt p.bus with
    | true => simp [hh] at h
    | false =>
      simp only [hh, Bool.false_eq_true, if_false] at h
      cases hc : Processor.tryCycle M p with
      | raised f r => simp [hc] at h
      | done p1 =>
        simp only [hc] at h
        have hlt : p.pipeline.currentStage < 5 := by
          rw [hi]; exact Nat.mod_lt _ (by decide)
        have hcy := Processor.tryCycle_done_pipeline M p p1 (Or.inr hlt) hc
        obtain ⟨t, ht, htp, hti⟩ := Pipeline.cycle_np_index p.pipeline hp hlt
        rw [hcy] at ht
        injection ht with ht
        subst ht
        have hn1 : p1.nCycles = p.nCycles + 1 := by
          rw [(Processor.tryCycle_done M p p1 hc).1, incr64, Nat.mod_eq_of_lt (by omega)]
        obtain ⟨g1, g2, g3⟩ := ih p1 htp (by rw [hti, hi, hn1]; omega) (by omega) h
        exact ⟨g1, g2, by omega⟩

/-- C22: non-pipelined, after `n` completed cycles of a new processor (`n`
within the range of the cycle counter): the cycle count is `n` and the active
stage index is the cycle count modulo 5; so fetch is the active stage exactly
when the cycle count is a multiple of 5, a cycle that runs to its end has
pulsed the bus once if fetch was active and not at all otherwise, and a cycle
in which the memory stage is active runs to its end with the bus untouched. -/
theorem c22_bus_pulse_in_fetch_cycles {β : Type} (M : BusModel β) (bus : β) (entry : Nat)
    (debugMode : Bool) (n : Nat) (hn : n < counterSize) (q : Processor β)
    (h : Processor.cyclesDone M n (Processor.new bus entry false debugMode) = some q) :
    q.nCycles = n ∧ q.pipeline.currentStage = q.nCycles % 5 ∧
    (stages[q.pipeline.currentStage]? = some StageId.IF ↔ q.nCycles % 5 = 0) ∧
    (∀ q1, Processor.tryCycle M q = CycleResult.done q1 →
      q1.bus = (if stages[q.pipeline.currentStage]? = some StageId.IF then M.pulse q.bus
        else q.bus)) ∧
    (stages[q.pipeline.currentStage]? = some StageId.MEM →
      q.nCycles % 5 ≠ 0 ∧
      ∃ q1, Processor.tryCycle M q = CycleResult.done q1 ∧ q1.bus = q.bus) := by
  have hp0 : (Processor.new bus entry false debugMode).nCycles = 0 := rfl
  obtain ⟨hp, hi, hc⟩ := Processor.cyclesDone_np_index M n _ q rfl rfl (by rw [hp0]; omega) h
  rw [hp0, Nat.zero_add] at hc
  have hlt : q.pipeline.currentStage < 5 := by rw [hi]; exact Nat.mod_lt _ (by decide)
  obtain ⟨hIF, hMEM⟩ := stages_index q.pipeline.currentStage hlt
  have hiff : stages[q.pipeline.currentStage]? = some StageId.IF ↔ q.nCycles % 5 = 0 := by
    rw [hIF, hi]
  refine ⟨hc, hi, hiff, fun q1 hq => ?_, fun hm => ?_⟩
  · rw [(Processor.tryCycle_done M q q1 hq).2]
    by_cases h5 : q.nCycles % 5 = 0
    · rw [if_pos h5, if_pos (hiff.2 h5)]
    · rw [if_neg h5, if_neg (fun hx => h5 (hiff.1 hx))]
  · have h3 : q.nCycles % 5 ≠ 0 := by
      have := hMEM.1 hm
      omega
    obtain ⟨t, _, _, _, _, he⟩ := Processor.tryCycle_wf M q (Or.inr hlt)
    rw [if_neg h3] at he
    exact ⟨h3, _, he, rfl⟩

theorem c22_bus_pulse_in_fetch_cycles_witness :
    8 < counterSize ∧
    ∃ q, Processor.cyclesDone (countingBus 1000 0) 8 (Processor.new 0 4 false false) = some q ∧
      q.nCycles = 8 ∧ q.pipeline.currentStage = q.nCycles % 5 :=
  have h : (Processor.cyclesDone (countingBus 1000 0) 8
      (Processor.new 0 4 false false)).isSome = true := by decide
  have r := c22_bus_pulse_in_fetch_cycles (countingBus 1000 0) 0 4 false 8
    (by decide) _ (Option.some_get h).symm
  ⟨by decide, _, (Option.some_get h).symm, r.1, r.2.1⟩

/-! ## Program counter 0 -/

/-- C23: in pipelined mode decode's `clockPulse` does not count when its
buffered program counter is 0 and write-back's `propagate` does not count when
MEM/WB holds 0, so a cycle entered with 0 in IF/ID does not increment
`nInstrIssued` and a cycle entered with 0 in MEM/WB does not increment
`nInstrCompleted`.  With the program counter at 0 both counters are 0 after
any number of pipelined cycles from a fresh pipeline, whereas non-pipelined
cycles count `(n + 3) / 5` issues and `n / 5` completions (modulo 2^64), that
is `k` of each after `5 k` cycles. -/
theorem c23_pc_zero_not_counted (s : Pipeline) (hp : s.pipelining = true)
    (debugMode : Bool) (entry : Nat) (h0 : entry % wordSize = 0) (n : Nat) :
    (s.idPC = 0 → (InstructionDecodeStage.clockPulse s).nInstrIssued = s.nInstrIssued) ∧
    (s.m_wb.PC = 0 → (WriteBackStage.propagate s).nInstrCompleted = s.nInstrCompleted) ∧
    (∃ t, Pipeline.cycle s = Except.ok t ∧
      (s.if_id.PC = 0 → t.nInstrIssued = s.nInstrIssued) ∧
      (s.m_wb.PC = 0 → t.nInstrCompleted = s.nInstrCompleted)) ∧
    (∃ t, Pipeline.cycles n (Pipeline.fresh true debugMode entry) = Except.ok t ∧
      t.PC = 0 ∧ t.nInstrIssued = 0 ∧ t.nInstrCompleted = 0) ∧
    (∃ t, Pipeline.cycles n (Pipeline.fresh false debugMode entry) = Except.ok t ∧
      t.PC = 0 ∧ t.nInstrIssued = ((n + 3) / 5) % counterSize ∧
      t.nInstrCompleted = (n / 5) % counterSize) ∧
    (n < counterSize →
      ∃ t, Pipeline.cycles (5 * n) (Pipeline.fresh false debugMode entry) = Except.ok t ∧
        t.nInstrIssued = n ∧ t.nInstrCompleted = n) := by
  have hpc : ∀ (m : Nat) (b : Bool) (t : Pipeline),
      Pipeline.cycles m (Pipeline.fresh b debugMode entry) = Except.ok t → t.PC = 0 := by
    intro m b t ht
    obtain ⟨u, hu, hf, _, _⟩ :=
      Pipeline.cycles_wf m (Pipeline.fresh b debugMode entry) (Pipeline.fresh_wf b debugMode entry)
    rw [ht] at hu
    injection hu with hu
    subst hu
    simp only [Pipeline.fixedPart, Prod.mk.injEq] at hf
    exact hf.2.2.2.1.trans h0
  refine ⟨fun hz => ?_, fun hz => ?_, ?_, ?_, ?_, fun hn => ?_⟩
  · simp [InstructionDecodeStage.clockPulse, hp, hz]
  · simp [WriteBackStage.propagate, hp, hz]
  · obtain ⟨t, ht, _, _, _, _, _, _, _, gi, gc⟩ := Pipeline.cycle_p s hp
    exact ⟨t, ht, fun hz => by rw [gi, if_pos hz], fun hz => by rw [gc, if_pos hz]⟩
  · obtain ⟨t, ht, hi, hc⟩ := Pipeline.pipelined_zero n (Pipeline.fresh true debugMode entry)
      rfl h0 rfl rfl rfl rfl
    exact ⟨t, ht, hpc n true t ht, hi, hc⟩
  · obtain ⟨t, ht, _, _, hi, hc⟩ := Pipeline.fresh_nonpipelined debugMode entry n
    exact ⟨t, ht, hpc n false t ht, hi, hc⟩
  · obtain ⟨t, ht, _, _, hi, hc⟩ := Pipeline.fresh_nonpipelined debugMode entry (5 * n)
    have e1 : (5 * n + 3) / 5 = n := by omega
    have e2 : 5 * n / 5 = n := by omega
    rw [e1, Nat.mod_eq_of_lt hn] at hi
    rw [e2, Nat.mod_eq_of_lt hn] at hc
    exact ⟨t, ht, hi, hc⟩

theorem c23_pc_zero_not_counted_witness :
    samplePipelined.pipelining = true ∧ 0 % wordSize = 0 ∧
    (∃ t, Pipeline.cycles 9 (Pipeline.fresh true false 0) = Except.ok t ∧
      t.PC = 0 ∧ t.nInstrIssued = 0 ∧ t.nInstrCompleted = 0) ∧
    (∃ t, Pipeline.cycles 9 (Pipeline.fresh false false 0) = Except.ok t ∧
      t.PC = 0 ∧ t.nInstrIssued = ((9 + 3) / 5) % counterSize ∧
      t.nInstrCompleted = (9 / 5) % counterSize) :=
  ⟨rfl, by decide,
    (c23_pc_zero_not_counted samplePipelined rfl false 0 (by decide) 9).2.2.2.1,
    (c23_pc_zero_not_counted samplePipelined rfl false 0 (by decide) 9).2.2.2.2.1⟩

end Emu
